import Mathlib

/-!
Verification development for the Read Access Manager of the octopus
variant-calling pipeline (src/src/read_manager.cpp).

The manager owns a catalog of alignment-file sources, partitioned into a
closed set (`closed_readers_`, an unordered set of paths) and an open pool
(`open_readers_`, a map from path to live reader ordered by on-disk file
size via `detail::file_size_compare`).  At construction it scans every
source once, building a per-source region index
(`possible_regions_in_readers_`) and a sample-to-sources index
(`reader_paths_containing_sample_`), then opens an initial subset of the
smallest sources up to the `max_open_files_` budget.  Queries
(`fetch_reads`) prune candidate sources through the region index, query
the already-open candidates, batch-open the rest (evicting the
smallest-file residents when the pool is full), and concatenate the
per-source results.

The embedding below follows read_manager.cpp line by line.  External
collaborators that are declared but whose definitions are not part of the
excerpt (the `HtslibSamFacade` reader, `detail::file_size_compare`,
`has_overlapped` from mappable_algorithms, and the filesystem) are
abstracted into an environment `Env`; where their behaviour matters the
accompanying doc comments say which spec clause the model follows.

Paths, sample identifiers, contig names and reads are opaque to the
manager, so they are modelled as natural numbers.  A genomic region is a
contig name together with a half-open interval of coordinates.
C++ containers are modelled as lists: the open-reader map becomes a list
kept sorted by file size (its head is `begin()`), the unordered
set/map containers become lists with explicit deduplication, association
lists stand for the hash maps.  Unsigned 32-bit arithmetic
(`max_open_files_ - open_readers_.size()` in `open_readers`) is modelled
with explicit `% 2 ^ 32`.  Undefined behaviour — dereferencing `begin()`
of the empty open map in `choose_reader_to_close` — is modelled as
failure (`Option.none`): the operation aborts at that point and produces
no successor state.
-/

namespace ReadManager

abbrev Path := Nat
abbrev SampleIdType := Nat
abbrev ContigName := Nat

/-- A half-open interval `[first, second)` of contig coordinates,
ordered lexicographically like octopus' `ContigRegion` (`operator<`
compares begin, then end). -/
abbrev ContigRegion := Nat × Nat

/-- `GenomicRegion` = contig name plus contig region, as in
`GenomicRegion::get_contig_name` / `get_contig_region`. -/
abbrev GenomicRegion := ContigName × ContigRegion

abbrev AlignedRead := Nat

/-- The manager's external collaborators, abstracted: the filesystem
(`fs::exists`, `fs::file_size`) and the per-source reader
(`HtslibSamFacade`: header scan `get_possible_regions_in_file`,
`get_samples`, and the region query `fetch_reads` returning a map from
sample to reads).  The manager treats all of these as black boxes. -/
structure Env where
  fileSize : Path → Nat
  pathExists : Path → Bool
  possibleRegions : Path → List GenomicRegion
  samplesOf : Path → List SampleIdType
  readerFetch : Path → GenomicRegion → List (SampleIdType × List AlignedRead)

/-- Association-list lookup, the model of hash-map `find`/`at`. -/
def lookupA {α : Type} (k : Nat) : List (Nat × α) → Option α
  | [] => none
  | e :: es => if k = e.1 then some e.2 else lookupA k es

/-- `reader.fetch_reads(region)[sample]`: `operator[]` on the returned
map default-constructs an empty read list when the sample is absent. -/
def readsOfFor (env : Env) (p : Path) (r : GenomicRegion) (s : SampleIdType) :
    List AlignedRead :=
  (lookupA s (env.readerFetch p r)).getD []

/-- The manager state: `max_open_files_`, `closed_readers_` (unordered
set, modelled as a duplicate-free list), `open_readers_` (map ordered by
`detail::file_size_compare`, modelled as a list sorted by file size whose
head is `begin()`), `reader_paths_containing_sample_` and
`possible_regions_in_readers_` (hash maps, modelled as association
lists). -/
structure MgrState where
  maxOpenFiles : Nat
  closedReaders : List Path
  openReadersL : List Path
  samplesIdx : List (SampleIdType × List Path)
  regionsIdx : List (Path × List (ContigName × List ContigRegion))
deriving Repr, DecidableEq, Inhabited

/-- 2^32, the modulus of C++ `unsigned` arithmetic in this code. -/
def U32 : Nat := 4294967296

instance {ε α : Type _} [DecidableEq ε] [DecidableEq α] : DecidableEq (Except ε α) :=
  fun a b =>
    match a, b with
    | .error e, .error f => decidable_of_iff (e = f) (by simp)
    | .error _, .ok _ => isFalse (by simp)
    | .ok _, .error _ => isFalse (by simp)
    | .ok x, .ok y => decidable_of_iff (x = y) (by simp)

/-- `ReadManager::is_open`: `open_readers_.count(reader_path) > 0`. -/
def isOpen (st : MgrState) (p : Path) : Bool :=
  st.openReadersL.contains p

/-- The ordering relation the open pool maintains: ascending on-disk
file size. -/
def sizeLE (env : Env) (a b : Path) : Prop :=
  env.fileSize a ≤ env.fileSize b

/-- Insertion into the size-ordered open map.  Modelled from the spec:
`detail::file_size_compare` is declared in the read_manager header (not
part of the excerpt); per spec 4.2 the residency structure is ordered by
on-disk file size with ties "broken arbitrarily but deterministically".
A new entry is placed before the first strictly larger resident, i.e.
after any resident of equal size. -/
def insertBySize (env : Env) (p : Path) : List Path → List Path
  | [] => [p]
  | q :: qs =>
    if env.fileSize p < env.fileSize q then p :: q :: qs
    else q :: insertBySize env p qs

/-- The `open_readers_.emplace(path, make_reader(path));
closed_readers_.erase(path);` pair that admits one source to the pool
(bodies of `ReadManager::open_reader` and of the loop in
`ReadManager::open_readers`). -/
def emplaceOpen (env : Env) (st : MgrState) (p : Path) : MgrState :=
  { st with
    openReadersL := insertBySize env p st.openReadersL
    closedReaders := st.closedReaders.erase p }

/-- `ReadManager::close_reader`: `open_readers_.erase(path);
closed_readers_.insert(path);`.  Insertion into the unordered set is a
no-op when the path is already present. -/
def closeReader (st : MgrState) (p : Path) : MgrState :=
  { st with
    openReadersL := st.openReadersL.erase p
    closedReaders :=
      if st.closedReaders.contains p then st.closedReaders
      else p :: st.closedReaders }

/-- `ReadManager::choose_reader_to_close`:
`open_readers_.begin()->first`, the smallest-file resident.  On an empty
pool the C++ dereferences the end iterator (undefined behaviour); the
model returns `none`. -/
def chooseReaderToClose (st : MgrState) : Option Path :=
  st.openReadersL.head?

/-- `ReadManager::close_readers(n)`: close the chosen victim `n` times.
Propagates the empty-pool failure of `chooseReaderToClose`. -/
def closeReaders (st : MgrState) : Nat → Option MgrState
  | 0 => some st
  | n + 1 =>
    match chooseReaderToClose st with
    | none => none
    | some v => closeReaders (closeReader st v) n

/-- `unsigned num_open_reader_spaces = max_open_files_ -
static_cast<unsigned>(open_readers_.size());` — unsigned 32-bit
subtraction, hence the explicit wrap-around. -/
def numOpenSpaces (st : MgrState) : Nat :=
  (st.maxOpenFiles + U32 - st.openReadersL.length % U32) % U32

/-- `num_readers_to_close` in `ReadManager::open_readers`. -/
def numReadersToClose (st : MgrState) (requested : Nat) : Nat :=
  if requested ≤ numOpenSpaces st then 0 else requested - numOpenSpaces st

/-- `ReadManager::open_readers(first, last)`: compute how many residents
must be evicted, close them, then admit the whole batch. -/
def openReadersB (env : Env) (st : MgrState) (cs : List Path) : Option MgrState :=
  match closeReaders st (numReadersToClose st cs.length) with
  | none => none
  | some st1 => some (cs.foldl (emplaceOpen env) st1)

/-- `ReadManager::open_reader` (single source): evict one resident first
when the pool is at capacity. -/
def openReaderOne (env : Env) (st : MgrState) (p : Path) : Option MgrState :=
  if st.openReadersL.length = st.maxOpenFiles then
    match chooseReaderToClose st with
    | none => none
    | some v => some (emplaceOpen env (closeReader st v) p)
  else some (emplaceOpen env st p)

/-- Lexicographic `operator<=` on `ContigRegion` (begin, then end). -/
def crLE (a b : ContigRegion) : Bool :=
  a.1 < b.1 || (a.1 = b.1 && a.2 ≤ b.2)

/-- Insertion step of the `std::sort` in
`add_possible_regions_to_reader_map`, with the default `operator<` on
`ContigRegion` (lexicographic). -/
def insertCR (x : ContigRegion) : List ContigRegion → List ContigRegion
  | [] => [x]
  | y :: ys => if crLE x y then x :: y :: ys else y :: insertCR x ys

/-- `std::sort(begin(contig_regions.second), end(contig_regions.second))`
modelled as insertion sort: same sorted result on distinct elements, a
fixed deterministic order on ties. -/
def sortCR : List ContigRegion → List ContigRegion
  | [] => []
  | x :: xs => insertCR x (sortCR xs)

/-- Worker for `dedupF`, carrying the elements already emitted. -/
def dedupGo (seen : List Path) : List Path → List Path
  | [] => []
  | p :: ps => if p ∈ seen then dedupGo seen ps else p :: dedupGo (p :: seen) ps

/-- First-occurrence deduplication, the effect of inserting a sequence
into `std::unordered_set` and reading it back (iteration order of the
unordered container is unspecified; the model fixes first-occurrence
order). -/
def dedupF (l : List Path) : List Path :=
  dedupGo [] l

/-- `ReadManager::add_possible_regions_to_reader_map` for one source:
group the header regions by contig name (hash-map `operator[]` plus
`emplace_back` preserves encounter order within a contig), then sort each
contig's interval list.  No deduplication is performed by the code. -/
def regionsEntry (rs : List GenomicRegion) : List (ContigName × List ContigRegion) :=
  (dedupF (rs.map (·.1))).map
    (fun cn => (cn, sortCR ((rs.filter (fun r => r.1 = cn)).map (·.2))))

/-- `ReadManager::add_reader_to_sample_map` for one source: append the
path to each of its samples' entries; a fresh sample key is appended to
the association list (hash-map key order is unspecified; the model fixes
first-encounter order). -/
def addSampleEntry (idx : List (SampleIdType × List Path)) (s : SampleIdType)
    (p : Path) : List (SampleIdType × List Path) :=
  if (lookupA s idx).isSome then
    idx.map (fun e => if e.1 = s then (e.1, e.2 ++ [p]) else e)
  else idx ++ [(s, [p])]

/-- `ReadManager::setup_reader_samples_and_regions`, sample-index half:
scan the sources in catalog order, recording each sample of each
source. -/
def setupSamples (env : Env) (closed : List Path) : List (SampleIdType × List Path) :=
  closed.foldl (fun idx p => (env.samplesOf p).foldl (fun i s => addSampleEntry i s p) idx) []

/-- Insertion step for sorting paths with `detail::file_size_compare`. -/
def insertPathBySize (env : Env) (p : Path) : List Path → List Path
  | [] => [p]
  | q :: qs =>
    if env.fileSize p ≤ env.fileSize q then p :: q :: qs
    else q :: insertPathBySize env p qs

/-- Full sort of a path list by file size.  `ReadManager::open_initial_files`
uses `std::nth_element(first, first + k, last, detail::file_size_compare)`,
whose guarantee is exactly that the first `k` positions hold `k` smallest
elements; a full sort is one conforming outcome, fixed here so the model
is deterministic. -/
def sortBySize (env : Env) : List Path → List Path
  | [] => []
  | p :: ps => insertPathBySize env p (sortBySize env ps)

/-- `ReadManager::open_initial_files`: copy the closed catalog, select the
`min(max_open_files_, closed_readers_.size())` smallest sources, and
batch-open them. -/
def openInitialFiles (env : Env) (st : MgrState) : Option MgrState :=
  openReadersB env st
    ((sortBySize env st.closedReaders).take (min st.maxOpenFiles st.closedReaders.length))

/-- `ReadManager::get_bad_paths`: the closed catalog entries for which
`fs::exists` fails, in catalog order. -/
def getBadPaths (env : Env) (closed : List Path) : List Path :=
  closed.filter (fun p => !env.pathExists p)

/-- The state `ReadManager::setup` reaches after
`setup_reader_samples_and_regions` on a good path list: both indexes
built, everything still closed. -/
def initialSt (env : Env) (paths : List Path) (maxOpen : Nat) : MgrState :=
  { maxOpenFiles := maxOpen
    closedReaders := dedupF paths
    openReadersL := []
    samplesIdx := setupSamples env (dedupF paths)
    regionsIdx := (dedupF paths).map (fun p => (p, regionsEntry (env.possibleRegions p))) }

/-- `ReadManager::ReadManager` + `ReadManager::setup`: build the closed
set from the path list (the unordered set deduplicates), fail with the
complete bad-path list if any path does not exist — before any index is
built — otherwise build both indexes
(`setup_reader_samples_and_regions`) and open the initial files.  The
outer `Option` records the abort of `open_initial_files` (impossible for
an `unsigned`-sized budget, see `construct_ok_of_good`). -/
def construct (env : Env) (paths : List Path) (maxOpen : Nat) :
    Option (Except (List Path) MgrState) :=
  if (getBadPaths env (dedupF paths)).isEmpty then
    (openInitialFiles env (initialSt env paths maxOpen)).map Except.ok
  else some (Except.error (getBadPaths env (dedupF paths)))

/-- The overlap test of `has_overlapped` (mappable_algorithms, outside
the excerpt).  Modelled from the spec (4.3): true iff at least one
indexed sub-range overlaps the query range; half-open intervals overlap
when each begins before the other ends. -/
def hasOverlapped (crs : List ContigRegion) (q : ContigRegion) : Bool :=
  crs.any (fun cr => cr.1 < q.2 && q.1 < cr.2)

/-- `ReadManager::could_reader_contain_region`: false when the source has
no region-index entry or none for the query's contig, otherwise the
overlap test against that contig's sorted interval list. -/
def couldReaderContainRegion (st : MgrState) (p : Path) (r : GenomicRegion) : Bool :=
  match lookupA p st.regionsIdx with
  | none => false
  | some entry =>
    match lookupA r.1 entry with
    | none => false
    | some crs => hasOverlapped crs r.2

/-- Errors a fetch can raise: `std::out_of_range` from
`reader_paths_containing_sample_.at(sample)` on an unknown sample, and
the empty-pool undefined behaviour of `choose_reader_to_close` modelled
as an abort. -/
inductive FetchErr where
  | unknownSample
  | poolUnderflow
deriving Repr, DecidableEq

/-- Replace the entry of sample `s` (the in-place `std::partition` writes
through the reference returned by `.at(sample)`); keys and their order
are untouched. -/
def updateSampleA (idx : List (SampleIdType × List Path)) (s : SampleIdType)
    (v : List Path) : List (SampleIdType × List Path) :=
  idx.map (fun e => if e.1 = s then (e.1, v) else e)

/-- The first `std::partition` predicate of a fetch: the candidates the
region index cannot rule out. -/
def passOf (st : MgrState) (r : GenomicRegion) (l : List Path) : List Path :=
  l.filter (fun p => couldReaderContainRegion st p r)

/-- The complement group of the first `std::partition`. -/
def failOf (st : MgrState) (r : GenomicRegion) (l : List Path) : List Path :=
  l.filter (fun p => !couldReaderContainRegion st p r)

/-- The second `std::partition` predicate: candidates already open. -/
def openCand (st : MgrState) (l : List Path) : List Path :=
  l.filter (fun p => isOpen st p)

/-- The complement group of the second `std::partition`: candidates that
still have to be opened. -/
def notOpenCand (st : MgrState) (l : List Path) : List Path :=
  l.filter (fun p => !isOpen st p)

/-- Concatenation of per-source read lists for one sample, in source
processing order (the `std::for_each` loops of the single-sample
fetch). -/
def readsConcat (env : Env) (r : GenomicRegion) (s : SampleIdType) (l : List Path) :
    List AlignedRead :=
  (l.map (fun p => readsOfFor env p r s)).flatten

/-- The manager state right after the two in-place `std::partition`
calls of the single-sample fetch: the sample's path vector has been
reordered into (region-passing ∧ open) ++ (region-passing ∧ closed) ++
region-failing.  `std::partition` only guarantees the grouping; the
model fixes the stable order. -/
def partitionedSt (st : MgrState) (s : SampleIdType) (r : GenomicRegion)
    (paths : List Path) : MgrState :=
  { st with
    samplesIdx := updateSampleA st.samplesIdx s
      (openCand st (passOf st r paths) ++ notOpenCand st (passOf st r paths)
        ++ failOf st r paths) }

/-- Body of the single-sample fetch once the sample's path list is in
hand: partition in place, query the open candidates, batch-open the
rest, query them, concatenate. -/
def fetchSCore (env : Env) (st : MgrState) (s : SampleIdType) (paths : List Path)
    (r : GenomicRegion) : Except FetchErr (MgrState × List AlignedRead) :=
  match openReadersB env (partitionedSt st s r paths)
      (notOpenCand st (passOf st r paths)) with
  | none => .error .poolUnderflow
  | some st2 =>
    .ok (st2, readsConcat env r s (openCand st (passOf st r paths))
      ++ readsConcat env r s (notOpenCand st (passOf st r paths)))

/-- `ReadManager::fetch_reads(sample, region)`: look the sample up
(`std::out_of_range` when unknown), then run the partition / query /
batch-open / query pipeline. -/
def fetchReadsS (env : Env) (st : MgrState) (s : SampleIdType) (r : GenomicRegion) :
    Except FetchErr (MgrState × List AlignedRead) :=
  match lookupA s st.samplesIdx with
  | none => .error .unknownSample
  | some paths => fetchSCore env st s paths r

/-- `ReadManager::get_reader_paths_containing_samples`: look every
requested sample up (throwing on the first unknown one) and deduplicate
the union of their path lists. -/
def collectSamplePaths (st : MgrState) : List SampleIdType → Except FetchErr (List Path)
  | [] => .ok []
  | s :: ss =>
    match lookupA s st.samplesIdx with
    | none => .error .unknownSample
    | some l =>
      match collectSamplePaths st ss with
      | .error e => .error e
      | .ok rest => .ok (l ++ rest)

def getReaderPathsContainingSamples (st : MgrState) (samples : List SampleIdType) :
    Except FetchErr (List Path) :=
  (collectSamplePaths st samples).map dedupF

/-- `result[sample].insert(end, ...)` on the accumulator hash map:
append the reads to an existing key's list, or append a fresh key. -/
def appendInto (acc : List (SampleIdType × List AlignedRead)) (s : SampleIdType)
    (rs : List AlignedRead) : List (SampleIdType × List AlignedRead) :=
  if (lookupA s acc).isSome then
    acc.map (fun e => if e.1 = s then (e.1, e.2 ++ rs) else e)
  else acc ++ [(s, rs)]

/-- Demultiplex one reader's per-sample result map into the accumulator
(the inner `for (auto& sample_reads : reads)` loop). -/
def demux (acc : List (SampleIdType × List AlignedRead))
    (entries : List (SampleIdType × List AlignedRead)) :
    List (SampleIdType × List AlignedRead) :=
  entries.foldl (fun a e => appendInto a e.1 e.2) acc

/-- Body of the multi-sample fetch once the deduplicated candidate
paths are in hand: filter by region, query open candidates, batch-open
and query the rest, demultiplexing every reader's result map into the
accumulator.  The candidate vector here is a fresh copy, so the sample
index is not touched. -/
def fetchMCore (env : Env) (st : MgrState) (rpaths : List Path) (r : GenomicRegion) :
    Except FetchErr (MgrState × List (SampleIdType × List AlignedRead)) :=
  match openReadersB env st (notOpenCand st (passOf st r rpaths)) with
  | none => .error .poolUnderflow
  | some st2 =>
    .ok (st2, (notOpenCand st (passOf st r rpaths)).foldl
      (fun a p => demux a (env.readerFetch p r))
      ((openCand st (passOf st r rpaths)).foldl
        (fun a p => demux a (env.readerFetch p r)) []))

/-- `ReadManager::fetch_reads(samples, region)`: dedupe the union of the
samples' sources (`get_reader_paths_containing_samples`), then run the
shared pipeline. -/
def fetchReadsM (env : Env) (st : MgrState) (samples : List SampleIdType)
    (r : GenomicRegion) :
    Except FetchErr (MgrState × List (SampleIdType × List AlignedRead)) :=
  match getReaderPathsContainingSamples st samples with
  | .error e => .error e
  | .ok rpaths => fetchMCore env st rpaths r

/-- `ReadManager::get_samples`: the sample-index keys in iteration
order. -/
def getSamples (st : MgrState) : List SampleIdType :=
  st.samplesIdx.map (·.1)

/-- `ReadManager::num_samples`. -/
def numSamples (st : MgrState) : Nat :=
  st.samplesIdx.length

/-- `ReadManager::fetch_reads(region)` = fetch for all known samples. -/
def fetchReadsAll (env : Env) (st : MgrState) (r : GenomicRegion) :
    Except FetchErr (MgrState × List (SampleIdType × List AlignedRead)) :=
  fetchReadsM env st (getSamples st) r

/-- The manager's public mutating operations, for stating trace
invariants. -/
inductive Op where
  | openOne (p : Path)
  | closeOne (p : Path)
  | fetchS (s : SampleIdType) (r : GenomicRegion)
  | fetchM (ss : List SampleIdType) (r : GenomicRegion)
  | fetchAll (r : GenomicRegion)

/-- One operation against the manager.  An unknown-sample fetch throws
out of the call leaving the state intact; the empty-pool undefined
behaviour aborts the trace (`none`). -/
def stepOp (env : Env) (st : MgrState) : Op → Option MgrState
  | .openOne p => openReaderOne env st p
  | .closeOne p => some (closeReader st p)
  | .fetchS s r =>
    match fetchReadsS env st s r with
    | .ok (st2, _) => some st2
    | .error .unknownSample => some st
    | .error .poolUnderflow => none
  | .fetchM ss r =>
    match fetchReadsM env st ss r with
    | .ok (st2, _) => some st2
    | .error .unknownSample => some st
    | .error .poolUnderflow => none
  | .fetchAll r =>
    match fetchReadsAll env st r with
    | .ok (st2, _) => some st2
    | .error .unknownSample => some st
    | .error .poolUnderflow => none

/-- Run a sequence of operations. -/
def runOps (env : Env) (st : MgrState) : List Op → Option MgrState
  | [] => some st
  | o :: os =>
    match stepOp env st o with
    | none => none
    | some st2 => runOps env st2 os

/-- The reachable-state invariant: the budget fits an `unsigned`, the
pool respects the budget, and the open list is sorted by file size. -/
structure Inv (env : Env) (st : MgrState) : Prop where
  hmax : st.maxOpenFiles < U32
  hcount : st.openReadersL.length ≤ st.maxOpenFiles
  hsorted : st.openReadersL.Pairwise (sizeLE env)

/-! ### Helper lemmas: insertion, sorting, deduplication -/

theorem length_insertBySize (env : Env) (p : Path) (l : List Path) :
    (insertBySize env p l).length = l.length + 1 := by
  induction l with
  | nil => rfl
  | cons q qs ih =>
    simp only [insertBySize]
    split <;> simp [ih]

theorem mem_insertBySize {env : Env} {p q : Path} {l : List Path} :
    q ∈ insertBySize env p l ↔ q = p ∨ q ∈ l := by
  induction l with
  | nil => simp [insertBySize]
  | cons x xs ih =>
    simp only [insertBySize]
    split
    · simp [List.mem_cons]
    · simp only [List.mem_cons, ih]
      tauto

theorem pairwise_insertBySize {env : Env} {p : Path} {l : List Path}
    (h : l.Pairwise (sizeLE env)) :
    (insertBySize env p l).Pairwise (sizeLE env) := by
  induction l with
  | nil => simp [insertBySize, List.pairwise_singleton]
  | cons q qs ih =>
    rw [List.pairwise_cons] at h
    simp only [insertBySize]
    split
    · rename_i hlt
      refine List.Pairwise.cons ?_ (List.Pairwise.cons h.1 h.2)
      intro b hb
      rcases List.mem_cons.mp hb with rfl | hb
      · exact Nat.le_of_lt hlt
      · exact Nat.le_trans (Nat.le_of_lt hlt) (h.1 b hb)
    · rename_i hge
      refine List.Pairwise.cons ?_ (ih h.2)
      intro b hb
      rcases mem_insertBySize.mp hb with rfl | hb
      · exact Nat.le_of_not_lt hge
      · exact h.1 b hb

theorem length_insertPathBySize (env : Env) (p : Path) (l : List Path) :
    (insertPathBySize env p l).length = l.length + 1 := by
  induction l with
  | nil => rfl
  | cons q qs ih =>
    simp only [insertPathBySize]
    split <;> simp [ih]

theorem insertPathBySize_perm (env : Env) (p : Path) (l : List Path) :
    List.Perm (insertPathBySize env p l) (p :: l) := by
  induction l with
  | nil => exact List.Perm.refl _
  | cons q qs ih =>
    simp only [insertPathBySize]
    split
    · exact List.Perm.refl _
    · exact (ih.cons q).trans (List.Perm.swap p q qs)

theorem pairwise_insertPathBySize {env : Env} {p : Path} {l : List Path}
    (h : l.Pairwise (sizeLE env)) :
    (insertPathBySize env p l).Pairwise (sizeLE env) := by
  induction l with
  | nil => simp [insertPathBySize, List.pairwise_singleton]
  | cons q qs ih =>
    rw [List.pairwise_cons] at h
    simp only [insertPathBySize]
    split
    · rename_i hle
      refine List.Pairwise.cons ?_ (List.Pairwise.cons h.1 h.2)
      intro b hb
      rcases List.mem_cons.mp hb with rfl | hb
      · exact hle
      · exact Nat.le_trans hle (h.1 b hb)
    · rename_i hgt
      refine List.Pairwise.cons ?_ (ih h.2)
      intro b hb
      have hmem := (insertPathBySize_perm env p qs).mem_iff.mp hb
      rcases List.mem_cons.mp hmem with rfl | hb2
      · exact Nat.le_of_not_le hgt
      · exact h.1 b hb2

theorem sortBySize_perm (env : Env) (l : List Path) : List.Perm (sortBySize env l) l := by
  induction l with
  | nil => exact List.Perm.refl _
  | cons p ps ih =>
    exact (insertPathBySize_perm env p (sortBySize env ps)).trans (ih.cons p)

theorem pairwise_sortBySize (env : Env) (l : List Path) :
    (sortBySize env l).Pairwise (sizeLE env) := by
  induction l with
  | nil => exact List.Pairwise.nil
  | cons p ps ih => exact pairwise_insertPathBySize ih

theorem insertCR_perm (x : ContigRegion) (l : List ContigRegion) :
    List.Perm (insertCR x l) (x :: l) := by
  induction l with
  | nil => exact List.Perm.refl _
  | cons y ys ih =>
    simp only [insertCR]
    split
    · exact List.Perm.refl _
    · exact (ih.cons y).trans (List.Perm.swap x y ys)

theorem sortCR_perm (l : List ContigRegion) : List.Perm (sortCR l) l := by
  induction l with
  | nil => exact List.Perm.refl _
  | cons x xs ih => exact (insertCR_perm x (sortCR xs)).trans (ih.cons x)

/-- The ordering the sorted contig-interval list satisfies. -/
def crLEP (a b : ContigRegion) : Prop :=
  a.1 < b.1 ∨ (a.1 = b.1 ∧ a.2 ≤ b.2)

theorem crLE_iff {a b : ContigRegion} : crLE a b = true ↔ crLEP a b := by
  cases a; cases b
  simp only [crLE, crLEP, Bool.or_eq_true, Bool.and_eq_true, decide_eq_true_eq]

theorem pairwise_insertCR {x : ContigRegion} {l : List ContigRegion}
    (h : l.Pairwise crLEP) : (insertCR x l).Pairwise crLEP := by
  induction l with
  | nil => simp [insertCR, List.pairwise_singleton]
  | cons y ys ih =>
    rw [List.pairwise_cons] at h
    simp only [insertCR]
    split
    · rename_i hle
      have hxy : crLEP x y := crLE_iff.mp hle
      refine List.Pairwise.cons ?_ (List.Pairwise.cons h.1 h.2)
      intro b hb
      rcases List.mem_cons.mp hb with rfl | hb
      · exact hxy
      · have hyb := h.1 b hb
        rcases x with ⟨x1, x2⟩; rcases y with ⟨y1, y2⟩; rcases b with ⟨b1, b2⟩
        simp only [crLEP] at hxy hyb ⊢
        omega
    · rename_i hgt
      have hyx : crLEP y x := by
        have hnot : ¬ crLEP x y := fun hc => hgt (crLE_iff.mpr hc)
        rcases x with ⟨x1, x2⟩; rcases y with ⟨y1, y2⟩
        simp only [crLEP] at hnot ⊢
        omega
      refine List.Pairwise.cons ?_ (ih h.2)
      intro b hb
      have hmem := (insertCR_perm x ys).mem_iff.mp hb
      rcases List.mem_cons.mp hmem with rfl | hb2
      · exact hyx
      · exact h.1 b hb2

theorem pairwise_sortCR (l : List ContigRegion) : (sortCR l).Pairwise crLEP := by
  induction l with
  | nil => exact List.Pairwise.nil
  | cons x xs ih => exact pairwise_insertCR ih

theorem mem_dedupGo {q : Path} : ∀ {seen l : List Path},
    q ∈ dedupGo seen l ↔ q ∈ l ∧ q ∉ seen := by
  intro seen l
  induction l generalizing seen with
  | nil => simp [dedupGo]
  | cons p ps ih =>
    simp only [dedupGo]
    split
    · rename_i hmem
      rw [ih]
      simp only [List.mem_cons]
      constructor
      · rintro ⟨h1, h2⟩; exact ⟨Or.inr h1, h2⟩
      · rintro ⟨h1 | h1, h2⟩
        · exact absurd hmem (h1 ▸ h2)
        · exact ⟨h1, h2⟩
    · rename_i hmem
      simp only [List.mem_cons, ih, List.mem_cons]
      constructor
      · rintro (rfl | ⟨h1, h2⟩)
        · exact ⟨Or.inl rfl, hmem⟩
        · exact ⟨Or.inr h1, fun hs => h2 (Or.inr hs)⟩
      · rintro ⟨rfl | h1, h2⟩
        · exact Or.inl rfl
        · by_cases hqp : q = p
          · exact Or.inl hqp
          · refine Or.inr ⟨h1, fun hs => ?_⟩
            rcases hs with rfl | hs
            · exact hqp rfl
            · exact h2 hs

theorem mem_dedupF {q : Path} {l : List Path} : q ∈ dedupF l ↔ q ∈ l := by
  rw [dedupF, mem_dedupGo]
  simp

theorem nodup_dedupGo : ∀ (seen l : List Path), (dedupGo seen l).Nodup := by
  intro seen l
  induction l generalizing seen with
  | nil => exact List.nodup_nil
  | cons p ps ih =>
    simp only [dedupGo]
    split
    · exact ih seen
    · refine List.Nodup.cons ?_ (ih (p :: seen))
      intro hmem
      exact (mem_dedupGo.mp hmem).2 (by simp)

theorem nodup_dedupF (l : List Path) : (dedupF l).Nodup :=
  nodup_dedupGo [] l

/-! ### Helper lemmas: the reader pool -/

theorem closeReaders_spec (env : Env) :
    ∀ (n : Nat) (st st2 : MgrState), closeReaders st n = some st2 →
      st2.maxOpenFiles = st.maxOpenFiles ∧
      st2.openReadersL.length + n = st.openReadersL.length ∧
      (∀ p, p ∈ st2.openReadersL → p ∈ st.openReadersL) ∧
      (st.openReadersL.Pairwise (sizeLE env) → st2.openReadersL.Pairwise (sizeLE env)) ∧
      st2.samplesIdx = st.samplesIdx ∧ st2.regionsIdx = st.regionsIdx := by
  intro n
  induction n with
  | zero =>
    intro st st2 h
    simp only [closeReaders] at h
    injection h with h
    subst h
    exact ⟨rfl, rfl, fun p hp => hp, fun h => h, rfl, rfl⟩
  | succ n ih =>
    intro st st2 h
    simp only [closeReaders, chooseReaderToClose] at h
    cases hl : st.openReadersL with
    | nil => rw [hl] at h; simp at h
    | cons v t =>
      rw [hl] at h
      simp only [List.head?_cons] at h
      have hopen : (closeReader st v).openReadersL = t := by
        simp [closeReader, hl]
      obtain ⟨h1, h2, h3, h4, h5, h6⟩ := ih (closeReader st v) st2 h
      rw [hopen] at h2 h3 h4
      refine ⟨h1, by simp; omega, ?_, ?_, h5, h6⟩
      · intro p hp
        exact List.mem_cons_of_mem v (h3 p hp)
      · intro hs
        exact h4 (List.pairwise_cons.mp hs).2

theorem closeReaders_isSome (st : MgrState) (n : Nat)
    (h : n ≤ st.openReadersL.length) : ∃ st2, closeReaders st n = some st2 := by
  induction n generalizing st with
  | zero => exact ⟨st, rfl⟩
  | succ n ih =>
    cases hl : st.openReadersL with
    | nil => rw [hl] at h; simp at h
    | cons v t =>
      have hopen : (closeReader st v).openReadersL = t := by
        simp [closeReader, hl]
      have hle : n ≤ (closeReader st v).openReadersL.length := by
        rw [hopen]; rw [hl] at h; simpa using Nat.le_of_succ_le_succ h
      obtain ⟨st2, h2⟩ := ih (closeReader st v) hle
      refine ⟨st2, ?_⟩
      simp only [closeReaders, chooseReaderToClose, hl, List.head?_cons]
      exact h2

theorem foldl_emplaceOpen_spec (env : Env) :
    ∀ (cs : List Path) (st : MgrState),
      ((cs.foldl (emplaceOpen env) st).maxOpenFiles = st.maxOpenFiles) ∧
      ((cs.foldl (emplaceOpen env) st).openReadersL.length
        = st.openReadersL.length + cs.length) ∧
      (∀ p, p ∈ (cs.foldl (emplaceOpen env) st).openReadersL →
        p ∈ st.openReadersL ∨ p ∈ cs) ∧
      (st.openReadersL.Pairwise (sizeLE env) →
        (cs.foldl (emplaceOpen env) st).openReadersL.Pairwise (sizeLE env)) ∧
      ((cs.foldl (emplaceOpen env) st).samplesIdx = st.samplesIdx) ∧
      ((cs.foldl (emplaceOpen env) st).regionsIdx = st.regionsIdx) := by
  intro cs
  induction cs with
  | nil =>
    intro st
    exact ⟨rfl, rfl, fun p hp => Or.inl hp, fun h => h, rfl, rfl⟩
  | cons c cs ih =>
    intro st
    simp only [List.foldl_cons]
    obtain ⟨h1, h2, h3, h4, h5, h6⟩ := ih (emplaceOpen env st c)
    have hopen : (emplaceOpen env st c).openReadersL = insertBySize env c st.openReadersL := rfl
    refine ⟨h1, ?_, ?_, ?_, h5, h6⟩
    · rw [h2, hopen, length_insertBySize]
      simp; omega
    · intro p hp
      rcases h3 p hp with hp2 | hp2
      · rw [hopen] at hp2
        rcases mem_insertBySize.mp hp2 with rfl | hp3
        · exact Or.inr (List.mem_cons_self _ _)
        · exact Or.inl hp3
      · exact Or.inr (List.mem_cons_of_mem c hp2)
    · intro hs
      apply h4
      rw [hopen]
      exact pairwise_insertBySize hs

theorem numOpenSpaces_eq {env : Env} {st : MgrState} (hInv : Inv env st) :
    numOpenSpaces st = st.maxOpenFiles - st.openReadersL.length := by
  have h1 : st.maxOpenFiles < 4294967296 := hInv.hmax
  have h2 : st.openReadersL.length ≤ st.maxOpenFiles := hInv.hcount
  simp only [numOpenSpaces, U32]
  omega

theorem openReadersB_spec {env : Env} {st st2 : MgrState} {cs : List Path}
    (h : openReadersB env st cs = some st2) :
    st2.maxOpenFiles = st.maxOpenFiles ∧
    numReadersToClose st cs.length ≤ st.openReadersL.length ∧
    st2.openReadersL.length + numReadersToClose st cs.length
      = st.openReadersL.length + cs.length ∧
    (∀ p, p ∈ st2.openReadersL → p ∈ st.openReadersL ∨ p ∈ cs) ∧
    (st.openReadersL.Pairwise (sizeLE env) → st2.openReadersL.Pairwise (sizeLE env)) ∧
    st2.samplesIdx = st.samplesIdx ∧ st2.regionsIdx = st.regionsIdx := by
  unfold openReadersB at h
  cases hcl : closeReaders st (numReadersToClose st cs.length) with
  | none => rw [hcl] at h; simp at h
  | some st1 =>
    rw [hcl] at h
    injection h with h
    subst h
    obtain ⟨c1, c2, c3, c4, c5, c6⟩ := closeReaders_spec env _ st st1 hcl
    obtain ⟨f1, f2, f3, f4, f5, f6⟩ := foldl_emplaceOpen_spec env cs st1
    refine ⟨f1.trans c1, by omega, by omega, ?_, fun hs => f4 (c4 hs), f5.trans c5, f6.trans c6⟩
    intro p hp
    rcases f3 p hp with hp2 | hp2
    · exact Or.inl (c3 p hp2)
    · exact Or.inr hp2

theorem openReadersB_inv {env : Env} {st st2 : MgrState} {cs : List Path}
    (hInv : Inv env st) (h : openReadersB env st cs = some st2) : Inv env st2 := by
  obtain ⟨h1, h2, h3, _, h5, _, _⟩ := openReadersB_spec h
  have hsp := numOpenSpaces_eq hInv
  have hc := hInv.hcount
  refine ⟨h1 ▸ hInv.hmax, ?_, h5 hInv.hsorted⟩
  rw [h1]
  by_cases hle : cs.length ≤ numOpenSpaces st
  · simp only [numReadersToClose, if_pos hle] at h2 h3
    omega
  · simp only [numReadersToClose, if_neg hle] at h2 h3
    omega

theorem closeReader_inv {env : Env} {st : MgrState} (p : Path) (hInv : Inv env st) :
    Inv env (closeReader st p) := by
  have hsub : (closeReader st p).openReadersL.Sublist st.openReadersL :=
    List.erase_sublist p st.openReadersL
  exact ⟨hInv.hmax, Nat.le_trans hsub.length_le hInv.hcount, hInv.hsorted.sublist hsub⟩

theorem openReaderOne_inv {env : Env} {st st2 : MgrState} {p : Path}
    (hInv : Inv env st) (h : openReaderOne env st p = some st2) : Inv env st2 := by
  unfold openReaderOne at h
  split at h
  · rename_i heq
    cases hl : st.openReadersL with
    | nil =>
      rw [chooseReaderToClose, hl] at h
      simp at h
    | cons v t =>
      rw [chooseReaderToClose, hl] at h
      simp only [List.head?_cons] at h
      injection h with h
      subst h
      have hopen : (closeReader st v).openReadersL = t := by
        simp [closeReader, hl]
      have hlen : (emplaceOpen env (closeReader st v) p).openReadersL.length
          = t.length + 1 := by
        simp [emplaceOpen, hopen, length_insertBySize]
      refine ⟨hInv.hmax, ?_, ?_⟩
      · rw [show (emplaceOpen env (closeReader st v) p).maxOpenFiles = st.maxOpenFiles from rfl]
        rw [hlen, ← heq, hl]
        simp
      · show (insertBySize env p (closeReader st v).openReadersL).Pairwise (sizeLE env)
        rw [hopen]
        have hs := hInv.hsorted
        rw [hl] at hs
        exact pairwise_insertBySize (List.pairwise_cons.mp hs).2
  · rename_i hne
    injection h with h
    subst h
    refine ⟨hInv.hmax, ?_, pairwise_insertBySize hInv.hsorted⟩
    show (insertBySize env p st.openReadersL).length ≤ st.maxOpenFiles
    rw [length_insertBySize]
    have := hInv.hcount
    omega

/-! ### Helper lemmas: fetch inversion and invariant preservation -/

theorem fetchSCore_ok_elim {env : Env} {st : MgrState} {s : SampleIdType}
    {paths : List Path} {r : GenomicRegion} {st2 : MgrState} {res : List AlignedRead}
    (h : fetchSCore env st s paths r = .ok (st2, res)) :
    openReadersB env (partitionedSt st s r paths)
      (notOpenCand st (passOf st r paths)) = some st2 ∧
    res = readsConcat env r s (openCand st (passOf st r paths))
      ++ readsConcat env r s (notOpenCand st (passOf st r paths)) := by
  unfold fetchSCore at h
  cases hb : openReadersB env (partitionedSt st s r paths)
      (notOpenCand st (passOf st r paths)) with
  | none => rw [hb] at h; simp at h
  | some st3 =>
    rw [hb] at h
    injection h with h
    injection h with h1 h2
    subst h1
    exact ⟨rfl, h2.symm⟩

theorem fetchReadsS_ok_elim {env : Env} {st : MgrState} {s : SampleIdType}
    {r : GenomicRegion} {st2 : MgrState} {res : List AlignedRead}
    (h : fetchReadsS env st s r = .ok (st2, res)) :
    ∃ paths, lookupA s st.samplesIdx = some paths ∧
      openReadersB env (partitionedSt st s r paths)
        (notOpenCand st (passOf st r paths)) = some st2 ∧
      res = readsConcat env r s (openCand st (passOf st r paths))
        ++ readsConcat env r s (notOpenCand st (passOf st r paths)) := by
  unfold fetchReadsS at h
  cases hl : lookupA s st.samplesIdx with
  | none => rw [hl] at h; simp at h
  | some paths =>
    rw [hl] at h
    obtain ⟨hb, hres⟩ := fetchSCore_ok_elim h
    exact ⟨paths, rfl, hb, hres⟩

theorem fetchMCore_ok_elim {env : Env} {st : MgrState} {rpaths : List Path}
    {r : GenomicRegion} {st2 : MgrState} {res : List (SampleIdType × List AlignedRead)}
    (h : fetchMCore env st rpaths r = .ok (st2, res)) :
    openReadersB env st (notOpenCand st (passOf st r rpaths)) = some st2 ∧
    res = (notOpenCand st (passOf st r rpaths)).foldl
      (fun a p => demux a (env.readerFetch p r))
      ((openCand st (passOf st r rpaths)).foldl
        (fun a p => demux a (env.readerFetch p r)) []) := by
  unfold fetchMCore at h
  cases hb : openReadersB env st (notOpenCand st (passOf st r rpaths)) with
  | none => rw [hb] at h; simp at h
  | some st3 =>
    rw [hb] at h
    injection h with h
    injection h with h1 h2
    subst h1
    exact ⟨rfl, h2.symm⟩

theorem fetchReadsM_ok_elim {env : Env} {st : MgrState} {samples : List SampleIdType}
    {r : GenomicRegion} {st2 : MgrState} {res : List (SampleIdType × List AlignedRead)}
    (h : fetchReadsM env st samples r = .ok (st2, res)) :
    ∃ rpaths, getReaderPathsContainingSamples st samples = .ok rpaths ∧
      openReadersB env st (notOpenCand st (passOf st r rpaths)) = some st2 := by
  unfold fetchReadsM at h
  cases hl : getReaderPathsContainingSamples st samples with
  | error e => rw [hl] at h; simp at h
  | ok rpaths =>
    rw [hl] at h
    exact ⟨rpaths, rfl, (fetchMCore_ok_elim h).1⟩

theorem partitionedSt_inv {env : Env} {st : MgrState} (s : SampleIdType)
    (r : GenomicRegion) (paths : List Path) (hInv : Inv env st) :
    Inv env (partitionedSt st s r paths) :=
  ⟨hInv.hmax, hInv.hcount, hInv.hsorted⟩

theorem fetchS_inv {env : Env} {st st2 : MgrState} {s : SampleIdType}
    {r : GenomicRegion} {res : List AlignedRead} (hInv : Inv env st)
    (h : fetchReadsS env st s r = .ok (st2, res)) : Inv env st2 := by
  obtain ⟨paths, _, hb, _⟩ := fetchReadsS_ok_elim h
  exact openReadersB_inv (partitionedSt_inv s r paths hInv) hb

theorem fetchM_inv {env : Env} {st st2 : MgrState} {samples : List SampleIdType}
    {r : GenomicRegion} {res : List (SampleIdType × List AlignedRead)} (hInv : Inv env st)
    (h : fetchReadsM env st samples r = .ok (st2, res)) : Inv env st2 := by
  obtain ⟨rpaths, _, hb⟩ := fetchReadsM_ok_elim h
  exact openReadersB_inv hInv hb

theorem stepOp_inv {env : Env} {st st2 : MgrState} {o : Op} (hInv : Inv env st)
    (h : stepOp env st o = some st2) : Inv env st2 := by
  cases o with
  | openOne p => exact openReaderOne_inv hInv h
  | closeOne p =>
    injection h with h
    subst h
    exact closeReader_inv p hInv
  | fetchS s r =>
    simp only [stepOp] at h
    cases hf : fetchReadsS env st s r with
    | ok pr =>
      rw [hf] at h
      injection h with h
      subst h
      exact fetchS_inv hInv (by rw [hf])
    | error e =>
      rw [hf] at h
      cases e with
      | unknownSample => injection h with h; subst h; exact hInv
      | poolUnderflow => simp at h
  | fetchM ss r =>
    simp only [stepOp] at h
    cases hf : fetchReadsM env st ss r with
    | ok pr =>
      rw [hf] at h
      injection h with h
      subst h
      exact fetchM_inv hInv (by rw [hf])
    | error e =>
      rw [hf] at h
      cases e with
      | unknownSample => injection h with h; subst h; exact hInv
      | poolUnderflow => simp at h
  | fetchAll r =>
    simp only [stepOp, fetchReadsAll] at h
    cases hf : fetchReadsM env st (getSamples st) r with
    | ok pr =>
      rw [hf] at h
      injection h with h
      subst h
      exact fetchM_inv hInv (by rw [hf])
    | error e =>
      rw [hf] at h
      cases e with
      | unknownSample => injection h with h; subst h; exact hInv
      | poolUnderflow => simp at h

theorem runOps_inv {env : Env} {ops : List Op} :
    ∀ {st st2 : MgrState}, Inv env st → runOps env st ops = some st2 → Inv env st2 := by
  induction ops with
  | nil =>
    intro st st2 hInv h
    simp only [runOps] at h
    injection h with h
    subst h
    exact hInv
  | cons o os ih =>
    intro st st2 hInv h
    simp only [runOps] at h
    cases hs : stepOp env st o with
    | none => rw [hs] at h; simp at h
    | some st1 =>
      rw [hs] at h
      exact ih (stepOp_inv hInv hs) h

/-! ### Helper lemmas: construction -/

theorem construct_ok_elim {env : Env} {paths : List Path} {maxOpen : Nat} {st : MgrState}
    (h : construct env paths maxOpen = some (.ok st)) :
    getBadPaths env (dedupF paths) = [] ∧
    openInitialFiles env (initialSt env paths maxOpen) = some st := by
  unfold construct at h
  by_cases hbad : (getBadPaths env (dedupF paths)).isEmpty
  · rw [if_pos hbad] at h
    cases ho : openInitialFiles env (initialSt env paths maxOpen) with
    | none => rw [ho] at h; simp at h
    | some st1 =>
      rw [ho] at h
      simp only [Option.map] at h
      injection h with h
      injection h with h
      subst h
      exact ⟨List.isEmpty_iff.mp hbad, rfl⟩
  · rw [if_neg hbad] at h
    injection h with h
    exact Except.noConfusion h

theorem construct_inv {env : Env} {paths : List Path} {maxOpen : Nat} {st : MgrState}
    (hmax : maxOpen < U32) (h : construct env paths maxOpen = some (.ok st)) :
    Inv env st := by
  obtain ⟨_, hopen⟩ := construct_ok_elim h
  unfold openInitialFiles at hopen
  exact openReadersB_inv ⟨hmax, Nat.zero_le _, List.Pairwise.nil⟩ hopen

/-- On a good path list with an `unsigned`-sized budget, construction
always succeeds: the initial batch never needs to evict. -/
theorem construct_ok_of_good {env : Env} {paths : List Path} {maxOpen : Nat}
    (hmax : maxOpen < U32) (hbad : getBadPaths env (dedupF paths) = []) :
    ∃ st, construct env paths maxOpen = some (.ok st) := by
  have hmax2 : maxOpen < 4294967296 := hmax
  have hsp : numOpenSpaces (initialSt env paths maxOpen) = maxOpen := by
    simp only [numOpenSpaces, initialSt, U32, List.length_nil]
    omega
  have hreq : ((sortBySize env (initialSt env paths maxOpen).closedReaders).take
      (min (initialSt env paths maxOpen).maxOpenFiles
        (initialSt env paths maxOpen).closedReaders.length)).length ≤ maxOpen := by
    show ((sortBySize env (dedupF paths)).take
      (min maxOpen (dedupF paths).length)).length ≤ maxOpen
    rw [List.length_take]
    have := (sortBySize_perm env (dedupF paths)).length_eq
    omega
  have h0 : numReadersToClose (initialSt env paths maxOpen)
      ((sortBySize env (initialSt env paths maxOpen).closedReaders).take
        (min (initialSt env paths maxOpen).maxOpenFiles
          (initialSt env paths maxOpen).closedReaders.length)).length = 0 := by
    unfold numReadersToClose
    rw [if_pos (by rw [hsp]; exact hreq)]
  unfold construct
  rw [if_pos (List.isEmpty_iff.mpr hbad)]
  unfold openInitialFiles openReadersB
  rw [h0]
  simp only [closeReaders]
  exact ⟨_, rfl⟩

/-! ### Helper lemmas: indexes, lookups, misc -/

theorem isOpen_iff {st : MgrState} {p : Path} : isOpen st p = true ↔ p ∈ st.openReadersL := by
  simp [isOpen]

theorem updateSampleA_keys (idx : List (SampleIdType × List Path)) (s : SampleIdType)
    (v : List Path) : (updateSampleA idx s v).map Prod.fst = idx.map Prod.fst := by
  induction idx with
  | nil => rfl
  | cons e es ih =>
    simp only [updateSampleA, List.map_cons] at ih ⊢
    rw [ih]
    congr 1
    split <;> rfl

theorem lookupA_updateSampleA (idx : List (SampleIdType × List Path)) (s t : SampleIdType)
    (v : List Path) :
    lookupA t (updateSampleA idx s v) =
      if t = s then (if (lookupA s idx).isSome then some v else none)
      else lookupA t idx := by
  induction idx with
  | nil => simp [updateSampleA, lookupA]
  | cons e es ih =>
    by_cases hks : e.1 = s
    · have hcons : updateSampleA (e :: es) s v = (e.1, v) :: updateSampleA es s v := by
        simp only [updateSampleA, List.map_cons, if_pos hks]
      rw [hcons]
      by_cases hts : t = s
      · have hte : t = e.1 := hts.trans hks.symm
        simp only [lookupA, if_pos hte, if_pos hts]
        simp [hks.symm]
      · have hte : t ≠ e.1 := fun h => hts (h.trans hks)
        simp only [lookupA, if_neg hte, if_neg hts]
        rw [ih, if_neg hts]
    · have hcons : updateSampleA (e :: es) s v = e :: updateSampleA es s v := by
        simp only [updateSampleA, List.map_cons, if_neg hks]
      rw [hcons]
      by_cases hte : t = e.1
      · have hts : t ≠ s := fun h => hks ((hte.symm.trans h) ▸ rfl)
        simp only [lookupA, if_pos hte, if_neg hts]
      · simp only [lookupA, if_neg hte]
        rw [ih]
        have hse : s ≠ e.1 := fun h => hks h.symm
        by_cases hts : t = s
        · rw [if_pos hts, if_pos hts]
          simp only [lookupA, if_neg hse]
        · rw [if_neg hts, if_neg hts]

theorem lookupA_map_pair {α : Type} {f : Nat → α} :
    ∀ {l : List Nat} {p : Nat} {y : α},
      lookupA p (l.map (fun x => (x, f x))) = some y → y = f p := by
  intro l
  induction l with
  | nil => intro p y h; simp [lookupA] at h
  | cons x xs ih =>
    intro p y h
    simp only [List.map_cons, lookupA] at h
    by_cases hpx : p = x
    · rw [if_pos hpx] at h
      injection h with h
      rw [← h, hpx]
    · rw [if_neg hpx] at h
      exact ih h

theorem foldl_emplaceOpen_closed (env : Env) :
    ∀ (cs : List Path) (st : MgrState), st.closedReaders.Nodup →
      (cs.foldl (emplaceOpen env) st).closedReaders.Nodup ∧
      (∀ c, c ∈ (cs.foldl (emplaceOpen env) st).closedReaders →
        c ∈ st.closedReaders ∧ c ∉ cs) := by
  intro cs
  induction cs with
  | nil =>
    intro st hnd
    exact ⟨hnd, fun c hc => ⟨hc, List.not_mem_nil c⟩⟩
  | cons c0 cs ih =>
    intro st hnd
    simp only [List.foldl_cons]
    have hnd2 : (emplaceOpen env st c0).closedReaders.Nodup := hnd.erase c0
    obtain ⟨ih1, ih2⟩ := ih (emplaceOpen env st c0) hnd2
    refine ⟨ih1, fun c hc => ?_⟩
    obtain ⟨hc1, hc2⟩ := ih2 c hc
    have hc3 : c ∈ st.closedReaders.erase c0 := hc1
    rw [hnd.mem_erase_iff] at hc3
    exact ⟨hc3.2, by simp [hc3.1, hc2]⟩

theorem openReadersB_zero {env : Env} {st : MgrState} {cs : List Path}
    (h : numReadersToClose st cs.length = 0) :
    openReadersB env st cs = some (cs.foldl (emplaceOpen env) st) := by
  unfold openReadersB
  rw [h]
  rfl

theorem couldReader_congr {st1 st2 : MgrState} (h : st1.regionsIdx = st2.regionsIdx)
    (p : Path) (r : GenomicRegion) :
    couldReaderContainRegion st1 p r = couldReaderContainRegion st2 p r := by
  unfold couldReaderContainRegion
  rw [h]

theorem passOf_congr {st1 st2 : MgrState} (h : st1.regionsIdx = st2.regionsIdx)
    (r : GenomicRegion) (l : List Path) : passOf st1 r l = passOf st2 r l := by
  unfold passOf
  exact List.filter_congr (fun p _ => couldReader_congr h p r)

theorem readsConcat_append (env : Env) (r : GenomicRegion) (s : SampleIdType)
    (l1 l2 : List Path) :
    readsConcat env r s (l1 ++ l2) = readsConcat env r s l1 ++ readsConcat env r s l2 := by
  unfold readsConcat
  rw [List.map_append, List.flatten_append]

theorem readsConcat_perm (env : Env) (r : GenomicRegion) (s : SampleIdType)
    {l1 l2 : List Path} (h : List.Perm l1 l2) :
    List.Perm (readsConcat env r s l1) (readsConcat env r s l2) := by
  unfold readsConcat
  have e1 : (l1.map (fun p => readsOfFor env p r s)).flatten
      = l1.flatMap (fun p => readsOfFor env p r s) := by simp [List.flatMap]
  have e2 : (l2.map (fun p => readsOfFor env p r s)).flatten
      = l2.flatMap (fun p => readsOfFor env p r s) := by simp [List.flatMap]
  rw [e1, e2]
  exact List.Perm.flatMap_right _ h

theorem collectSamplePaths_unknown {st : MgrState} {s : SampleIdType}
    (hs : lookupA s st.samplesIdx = none) :
    ∀ {ss : List SampleIdType}, s ∈ ss →
      collectSamplePaths st ss = .error .unknownSample := by
  intro ss
  induction ss with
  | nil => intro h; simp at h
  | cons t ts ih =>
    intro hmem
    rcases List.mem_cons.mp hmem with rfl | hmem2
    · simp only [collectSamplePaths, hs]
    · simp only [collectSamplePaths]
      cases hl : lookupA t st.samplesIdx with
      | none => rfl
      | some l =>
        rw [ih hmem2]

/-! ### Helper lemmas: field preservation along traces -/

theorem stepOp_max {env : Env} {st st2 : MgrState} {o : Op}
    (h : stepOp env st o = some st2) : st2.maxOpenFiles = st.maxOpenFiles := by
  cases o with
  | openOne p =>
    simp only [stepOp] at h
    unfold openReaderOne at h
    split at h
    · cases hl : st.openReadersL with
      | nil => rw [chooseReaderToClose, hl] at h; simp at h
      | cons v t =>
        rw [chooseReaderToClose, hl] at h
        simp only [List.head?_cons] at h
        injection h with h
        subst h
        rfl
    · injection h with h
      subst h
      rfl
  | closeOne p =>
    injection h with h
    subst h
    rfl
  | fetchS s r =>
    simp only [stepOp] at h
    cases hf : fetchReadsS env st s r with
    | ok pr =>
      rw [hf] at h
      injection h with h
      subst h
      obtain ⟨paths, _, hb, _⟩ := fetchReadsS_ok_elim hf
      exact (openReadersB_spec hb).1
    | error e =>
      rw [hf] at h
      cases e with
      | unknownSample => injection h with h; subst h; rfl
      | poolUnderflow => simp at h
  | fetchM ss r =>
    simp only [stepOp] at h
    cases hf : fetchReadsM env st ss r with
    | ok pr =>
      rw [hf] at h
      injection h with h
      subst h
      obtain ⟨rpaths, _, hb⟩ := fetchReadsM_ok_elim hf
      exact (openReadersB_spec hb).1
    | error e =>
      rw [hf] at h
      cases e with
      | unknownSample => injection h with h; subst h; rfl
      | poolUnderflow => simp at h
  | fetchAll r =>
    simp only [stepOp, fetchReadsAll] at h
    cases hf : fetchReadsM env st (getSamples st) r with
    | ok pr =>
      rw [hf] at h
      injection h with h
      subst h
      obtain ⟨rpaths, _, hb⟩ := fetchReadsM_ok_elim hf
      exact (openReadersB_spec hb).1
    | error e =>
      rw [hf] at h
      cases e with
      | unknownSample => injection h with h; subst h; rfl
      | poolUnderflow => simp at h

theorem runOps_max {env : Env} {ops : List Op} :
    ∀ {st st2 : MgrState}, runOps env st ops = some st2 →
      st2.maxOpenFiles = st.maxOpenFiles := by
  induction ops with
  | nil =>
    intro st st2 h
    simp only [runOps] at h
    injection h with h
    subst h
    rfl
  | cons o os ih =>
    intro st st2 h
    simp only [runOps] at h
    cases hs : stepOp env st o with
    | none => rw [hs] at h; simp at h
    | some st1 =>
      rw [hs] at h
      exact (ih h).trans (stepOp_max hs)

theorem construct_max {env : Env} {paths : List Path} {maxOpen : Nat} {st : MgrState}
    (h : construct env paths maxOpen = some (.ok st)) : st.maxOpenFiles = maxOpen := by
  obtain ⟨_, hopen⟩ := construct_ok_elim h
  unfold openInitialFiles at hopen
  exact (openReadersB_spec hopen).1

theorem initial_numReadersToClose_zero (env : Env) (paths : List Path) (maxOpen : Nat)
    (hmax : maxOpen < U32) (m : Nat) (hm : m ≤ maxOpen) :
    numReadersToClose (initialSt env paths maxOpen) m = 0 := by
  have hmax2 : maxOpen < 4294967296 := hmax
  have hsp : numOpenSpaces (initialSt env paths maxOpen) = maxOpen := by
    simp only [numOpenSpaces, initialSt, U32, List.length_nil]
    omega
  unfold numReadersToClose
  rw [if_pos (by rw [hsp]; exact hm)]

/-! ### Claim theorems -/

/-- C1: for every sequence of open, close and fetch operations run from a
freshly constructed manager with budget `maxOpen`, the number of open
readers is at most `maxOpen` after every operation (any prefix of the
trace is itself a trace, so this bounds every post-operation state), and
also at every intermediate point of a batch open: after each eviction
step of `close_readers` and after each admission step of the fold that
opens the candidate batch.  Executions the C++ cannot complete (the
empty-pool eviction, undefined behaviour) produce no state at all and
hence no state over budget. -/
theorem c1_budget_invariant (env : Env) (paths : List Path) (maxOpen : Nat)
    (ops : List Op) (st0 st : MgrState)
    (hmax : maxOpen < U32)
    (h0 : construct env paths maxOpen = some (.ok st0))
    (hrun : runOps env st0 ops = some st) :
    st.maxOpenFiles = maxOpen ∧
    st.openReadersL.length ≤ maxOpen ∧
    (∀ (n : Nat) (stC : MgrState), closeReaders st n = some stC →
      stC.openReadersL.length ≤ maxOpen) ∧
    (∀ (cs : List Path) (stC : MgrState),
      closeReaders st (numReadersToClose st cs.length) = some stC →
      ∀ k : Nat, ((cs.take k).foldl (emplaceOpen env) stC).openReadersL.length ≤ maxOpen) := by
  have hInv : Inv env st := runOps_inv (construct_inv hmax h0) hrun
  have hmaxeq : st.maxOpenFiles = maxOpen := (runOps_max hrun).trans (construct_max h0)
  refine ⟨hmaxeq, hmaxeq ▸ hInv.hcount, ?_, ?_⟩
  · intro n stC hc
    obtain ⟨_, hlen, _, _, _, _⟩ := closeReaders_spec env n st stC hc
    have hcnt := hInv.hcount
    omega
  · intro cs stC hc k
    obtain ⟨_, hlen, _, _, _, _⟩ := closeReaders_spec env _ st stC hc
    obtain ⟨_, hflen, _, _, _, _⟩ := foldl_emplaceOpen_spec env (cs.take k) stC
    have hsp := numOpenSpaces_eq hInv
    have hcnt := hInv.hcount
    have htk : (cs.take k).length ≤ cs.length := by
      rw [List.length_take]
      omega
    rw [hflen]
    by_cases hle : cs.length ≤ numOpenSpaces st
    · simp only [numReadersToClose, if_pos hle] at hlen
      omega
    · simp only [numReadersToClose, if_neg hle] at hlen
      omega

/-- C5: in every reachable state with a non-empty open pool, the chosen
eviction victim is the head of the size-ordered residency structure (its
deterministic first element), and its file size is minimal among all
currently open sources. -/
theorem c5_eviction_victim_smallest (env : Env) (paths : List Path) (maxOpen : Nat)
    (ops : List Op) (st0 st : MgrState) (v : Path) (rest : List Path)
    (hmax : maxOpen < U32)
    (h0 : construct env paths maxOpen = some (.ok st0))
    (hrun : runOps env st0 ops = some st)
    (hpool : st.openReadersL = v :: rest) :
    chooseReaderToClose st = some v ∧
    ∀ q ∈ st.openReadersL, env.fileSize v ≤ env.fileSize q := by
  have hInv : Inv env st := runOps_inv (construct_inv hmax h0) hrun
  constructor
  · unfold chooseReaderToClose
    rw [hpool]
    rfl
  · intro q hq
    rw [hpool] at hq
    rcases List.mem_cons.mp hq with rfl | hq2
    · exact Nat.le_refl _
    · have hs := hInv.hsorted
      rw [hpool] at hs
      exact List.rel_of_pairwise_cons hs hq2

/-- C6: after construction with budget `maxOpen`, exactly
`min maxOpen n` sources are open (`n` the number of distinct sources),
and every open source's file size is at most every closed source's file
size: the initial residents are smallest-first. -/
theorem c6_initial_open_smallest (env : Env) (paths : List Path) (maxOpen : Nat)
    (st : MgrState)
    (hmax : maxOpen < U32)
    (h : construct env paths maxOpen = some (.ok st)) :
    st.openReadersL.length = min maxOpen (dedupF paths).length ∧
    ∀ o ∈ st.openReadersL, ∀ c ∈ st.closedReaders, env.fileSize o ≤ env.fileSize c := by
  obtain ⟨hbad, hopen⟩ := construct_ok_elim h
  unfold openInitialFiles at hopen
  have hopen2 : openReadersB env (initialSt env paths maxOpen)
      ((sortBySize env (dedupF paths)).take (min maxOpen (dedupF paths).length))
      = some st := hopen
  have hlenSort : (sortBySize env (dedupF paths)).length = (dedupF paths).length :=
    (sortBySize_perm env (dedupF paths)).length_eq
  have hcsle : ((sortBySize env (dedupF paths)).take
      (min maxOpen (dedupF paths).length)).length ≤ maxOpen := by
    rw [List.length_take]
    omega
  have h0c : numReadersToClose (initialSt env paths maxOpen)
      ((sortBySize env (dedupF paths)).take
        (min maxOpen (dedupF paths).length)).length = 0 :=
    initial_numReadersToClose_zero env paths maxOpen hmax _ hcsle
  rw [openReadersB_zero h0c] at hopen2
  injection hopen2 with hopen2
  obtain ⟨_, hflen, hfmem, _, _, _⟩ :=
    foldl_emplaceOpen_spec env
      ((sortBySize env (dedupF paths)).take (min maxOpen (dedupF paths).length))
      (initialSt env paths maxOpen)
  obtain ⟨_, hfclosed⟩ :=
    foldl_emplaceOpen_closed env
      ((sortBySize env (dedupF paths)).take (min maxOpen (dedupF paths).length))
      (initialSt env paths maxOpen)
      (nodup_dedupF paths)
  constructor
  · rw [← hopen2]
    rw [hflen]
    show 0 + _ = _
    rw [List.length_take]
    omega
  · intro o ho c hc
    rw [← hopen2] at ho hc
    rcases hfmem o ho with ho2 | ho2
    · exact absurd ho2 (List.not_mem_nil o)
    · obtain ⟨hc1, hc2⟩ := hfclosed c hc
      have hcSort : c ∈ sortBySize env (dedupF paths) :=
        (sortBySize_perm env (dedupF paths)).mem_iff.mpr hc1
      have hcDrop : c ∈ (sortBySize env (dedupF paths)).drop
          (min maxOpen (dedupF paths).length) := by
        have := (List.mem_append (s := (sortBySize env (dedupF paths)).take
            (min maxOpen (dedupF paths).length))
          (t := (sortBySize env (dedupF paths)).drop
            (min maxOpen (dedupF paths).length))).mp
          (by rw [List.take_append_drop]; exact hcSort)
        rcases this with h1 | h1
        · exact absurd h1 hc2
        · exact h1
      have hpw : List.Pairwise (sizeLE env)
          ((sortBySize env (dedupF paths)).take (min maxOpen (dedupF paths).length) ++
            (sortBySize env (dedupF paths)).drop (min maxOpen (dedupF paths).length)) := by
        rw [List.take_append_drop]
        exact pairwise_sortBySize env (dedupF paths)
      exact (List.pairwise_append.mp hpw).2.2 o ho2 c hcDrop

/-- C2: a fetch (single-sample or multi-sample) only ever opens sources
that pass the region filter: every source open after a successful fetch
was either already open before it, or satisfies
`could_reader_contain_region` for the query region as evaluated on the
pre-fetch state.  In particular a source the filter rejects is never
opened by the call. -/
theorem c2_fetch_opens_only_filter_passing (env : Env) (st : MgrState)
    (r : GenomicRegion) :
    (∀ (s : SampleIdType) (st2 : MgrState) (res : List AlignedRead),
      fetchReadsS env st s r = .ok (st2, res) →
      ∀ p, p ∈ st2.openReadersL →
        p ∈ st.openReadersL ∨ couldReaderContainRegion st p r = true) ∧
    (∀ (ss : List SampleIdType) (st2 : MgrState)
      (res : List (SampleIdType × List AlignedRead)),
      fetchReadsM env st ss r = .ok (st2, res) →
      ∀ p, p ∈ st2.openReadersL →
        p ∈ st.openReadersL ∨ couldReaderContainRegion st p r = true) := by
  constructor
  · intro s st2 res h p hp
    obtain ⟨paths, hl, hb, _⟩ := fetchReadsS_ok_elim h
    obtain ⟨_, _, _, hmem, _, _, _⟩ := openReadersB_spec hb
    rcases hmem p hp with hp2 | hp2
    · exact Or.inl hp2
    · have hpass : p ∈ List.filter (fun q => couldReaderContainRegion st q r) paths :=
        List.mem_of_mem_filter hp2
      exact Or.inr (by simpa using List.of_mem_filter hpass)
  · intro ss st2 res h p hp
    obtain ⟨rpaths, hl, hb⟩ := fetchReadsM_ok_elim h
    obtain ⟨_, _, _, hmem, _, _, _⟩ := openReadersB_spec hb
    rcases hmem p hp with hp2 | hp2
    · exact Or.inl hp2
    · have hpass : p ∈ List.filter (fun q => couldReaderContainRegion st q r) rpaths :=
        List.mem_of_mem_filter hp2
      exact Or.inr (by simpa using List.of_mem_filter hpass)

/-- C3: fetching with a sample that is not a key of the sample index
raises the unknown-sample error (`std::out_of_range` from `.at`), for
the single-sample fetch and for any multi-sample fetch whose request
contains the unknown sample.  The error is raised before any partition,
open or query step, so no source is opened and the manager state is
untouched: the call produces an error value carrying no successor
state. -/
theorem c3_unknown_sample_error (env : Env) (st : MgrState) (s : SampleIdType)
    (r : GenomicRegion) (h : lookupA s st.samplesIdx = none) :
    fetchReadsS env st s r = Except.error FetchErr.unknownSample ∧
    ∀ ss, s ∈ ss → fetchReadsM env st ss r = Except.error FetchErr.unknownSample := by
  constructor
  · unfold fetchReadsS
    rw [h]
  · intro ss hmem
    unfold fetchReadsM getReaderPathsContainingSamples
    rw [collectSamplePaths_unknown h hmem]
    rfl

/-- C4: when at least one source path does not resolve to an existing
file, construction fails with an error naming every unreachable path
(each bad input path is in the reported list); the error is computed
from the path-existence predicate alone, before either index is built —
any environment agreeing on `pathExists` yields the identical error —
and when all paths exist construction proceeds and yields a manager
state. -/
theorem c4_construct_reports_all_bad_paths (env : Env) (paths : List Path)
    (maxOpen : Nat) (hmax : maxOpen < U32) :
    (getBadPaths env (dedupF paths) = [] →
      ∃ st, construct env paths maxOpen = some (.ok st)) ∧
    (getBadPaths env (dedupF paths) ≠ [] →
      construct env paths maxOpen
        = some (.error (getBadPaths env (dedupF paths))) ∧
      (∀ p ∈ paths, env.pathExists p = false →
        p ∈ getBadPaths env (dedupF paths)) ∧
      (∀ env2 : Env, env2.pathExists = env.pathExists →
        construct env2 paths maxOpen
          = some (.error (getBadPaths env (dedupF paths))))) := by
  constructor
  · exact fun hbad => construct_ok_of_good hmax hbad
  · intro hne
    have hisE : (getBadPaths env (dedupF paths)).isEmpty = false := by
      cases hl : getBadPaths env (dedupF paths) with
      | nil => exact absurd hl hne
      | cons a l => rfl
    refine ⟨?_, ?_, ?_⟩
    · unfold construct
      rw [if_neg (by rw [hisE]; exact Bool.false_ne_true)]
    · intro p hp hbadp
      unfold getBadPaths
      rw [List.mem_filter]
      refine ⟨mem_dedupF.mpr hp, by rw [hbadp]; rfl⟩
    · intro env2 h2
      have hgb : getBadPaths env2 (dedupF paths) = getBadPaths env (dedupF paths) := by
        unfold getBadPaths
        exact List.filter_congr (fun p _ => by rw [h2])
      unfold construct
      rw [hgb, if_neg (by rw [hisE]; exact Bool.false_ne_true)]

/-- The partitioned path vector a single-sample fetch writes back is a
permutation of the stored vector. -/
theorem partitionPerm (st : MgrState) (r : GenomicRegion) (paths : List Path) :
    List.Perm (openCand st (passOf st r paths) ++ notOpenCand st (passOf st r paths)
      ++ failOf st r paths) paths := by
  have h1 : List.Perm (openCand st (passOf st r paths)
      ++ notOpenCand st (passOf st r paths)) (passOf st r paths) := by
    unfold openCand notOpenCand
    exact List.filter_append_perm _ _
  have h2 : List.Perm (passOf st r paths ++ failOf st r paths) paths := by
    unfold passOf failOf
    exact List.filter_append_perm _ _
  exact (h1.append_right (failOf st r paths)).trans h2

/-- C7 (amended): a single-sample fetch reorders the fetched sample's
entry of the sample index in place but preserves it as a multiset, and
leaves the key sequence, every other entry, and the region index
untouched; a multi-sample fetch works on a fresh candidate vector and
leaves the sample index entirely unchanged. -/
theorem c7_sample_index_preserved_up_to_order (env : Env) (st : MgrState)
    (s : SampleIdType) (r : GenomicRegion) (st2 : MgrState) (res : List AlignedRead)
    (h : fetchReadsS env st s r = .ok (st2, res)) :
    st2.samplesIdx.map Prod.fst = st.samplesIdx.map Prod.fst ∧
    (∀ (t : SampleIdType) (l2 : List Path), lookupA t st2.samplesIdx = some l2 →
      ∃ l1, lookupA t st.samplesIdx = some l1 ∧ List.Perm l2 l1) ∧
    st2.regionsIdx = st.regionsIdx ∧
    (∀ (ss : List SampleIdType) (r2 : GenomicRegion) (stM : MgrState)
      (resM : List (SampleIdType × List AlignedRead)),
      fetchReadsM env st ss r2 = .ok (stM, resM) → stM.samplesIdx = st.samplesIdx) := by
  obtain ⟨paths, hl, hb, _⟩ := fetchReadsS_ok_elim h
  obtain ⟨_, _, _, _, _, hsmp, hrg⟩ := openReadersB_spec hb
  have hsmp2 : st2.samplesIdx = updateSampleA st.samplesIdx s
      (openCand st (passOf st r paths) ++ notOpenCand st (passOf st r paths)
        ++ failOf st r paths) := hsmp
  refine ⟨?_, ?_, hrg, ?_⟩
  · rw [hsmp2, updateSampleA_keys]
  · intro t l2 hlook
    rw [hsmp2, lookupA_updateSampleA] at hlook
    by_cases hts : t = s
    · rw [if_pos hts] at hlook
      rw [show (lookupA s st.samplesIdx).isSome = true from by rw [hl]; rfl] at hlook
      rw [if_pos rfl] at hlook
      injection hlook with hlook
      refine ⟨paths, hts ▸ hl, ?_⟩
      rw [← hlook]
      exact partitionPerm st r paths
    · rw [if_neg hts] at hlook
      exact ⟨l2, hlook, List.Perm.refl l2⟩
  · intro ss r2 stM resM hM
    obtain ⟨rp, _, hbM⟩ := fetchReadsM_ok_elim hM
    exact ((openReadersB_spec hbM).2.2.2.2.2.1 :)

/-- C8 (amended): after construction, every contig's interval sequence
in the region index is sorted ascending by start coordinate; it is
additionally duplicate-free whenever the header scan of that source
returned no duplicate region (the code sorts but performs no
deduplication, so duplicates in the scan output persist). -/
theorem c8_region_index_sorted_by_start (env : Env) (paths : List Path) (maxOpen : Nat)
    (st : MgrState) (p : Path) (entry : List (ContigName × List ContigRegion))
    (cn : ContigName) (crs : List ContigRegion)
    (h : construct env paths maxOpen = some (.ok st))
    (hp : lookupA p st.regionsIdx = some entry)
    (hcn : lookupA cn entry = some crs) :
    crs.Pairwise (fun a b => a.1 ≤ b.1) ∧
    ((env.possibleRegions p).Nodup → crs.Nodup) := by
  obtain ⟨_, hopen⟩ := construct_ok_elim h
  unfold openInitialFiles at hopen
  have hrg : st.regionsIdx
      = (dedupF paths).map (fun q => (q, regionsEntry (env.possibleRegions q))) :=
    ((openReadersB_spec hopen).2.2.2.2.2.2 :)
  rw [hrg] at hp
  have hentry : entry = regionsEntry (env.possibleRegions p) := lookupA_map_pair hp
  subst hentry
  unfold regionsEntry at hcn
  have hcrs : crs = sortCR (((env.possibleRegions p).filter
      (fun r0 => r0.1 = cn)).map (fun r0 => r0.2)) := lookupA_map_pair hcn
  subst hcrs
  constructor
  · refine (pairwise_sortCR _).imp ?_
    intro a b hab
    rcases hab with hab | ⟨hab, _⟩
    · omega
    · omega
  · intro hnd
    have hfil : ((env.possibleRegions p).filter (fun r0 => r0.1 = cn)).Nodup :=
      hnd.filter _
    have hmap : ((((env.possibleRegions p).filter
        (fun r0 => r0.1 = cn))).map (fun r0 => r0.2)).Nodup := by
      refine hfil.map_on ?_
      intro x hx y hy hxy
      have hx1 : x.1 = cn := by simpa using List.of_mem_filter hx
      have hy1 : y.1 = cn := by simpa using List.of_mem_filter hy
      obtain ⟨x1, x2⟩ := x
      obtain ⟨y1, y2⟩ := y
      simp only at hx1 hy1 hxy
      rw [hx1, hy1, hxy]
    exact ((sortCR_perm _).nodup_iff).mpr hmap

/-- The reads a multi-sample fetch result map associates with sample
`t` — `result[t]`, empty when the sample is absent from the
accumulator. -/
def resultReads (t : SampleIdType) (res : List (SampleIdType × List AlignedRead)) :
    List AlignedRead :=
  (lookupA t res).getD []

/-- The reads one reader's per-sample result map contributes to sample
`t`, in entry order — what the demux loop appends to `result[t]` while
processing that reader. -/
def entriesReadsFor (t : SampleIdType)
    (entries : List (SampleIdType × List AlignedRead)) : List AlignedRead :=
  ((entries.filter (fun e => e.1 = t)).map (fun e => e.2)).flatten

theorem lookupA_append_some {α : Type} {t : Nat} {l1 : List (Nat × α)} {v : α}
    (l2 : List (Nat × α)) (h : lookupA t l1 = some v) :
    lookupA t (l1 ++ l2) = some v := by
  induction l1 with
  | nil => simp [lookupA] at h
  | cons e es ih =>
    simp only [lookupA, List.cons_append] at h ⊢
    by_cases hte : t = e.1
    · rw [if_pos hte] at h ⊢
      exact h
    · rw [if_neg hte] at h ⊢
      exact ih h

theorem lookupA_append_none {α : Type} {t : Nat} {l1 : List (Nat × α)}
    (l2 : List (Nat × α)) (h : lookupA t l1 = none) :
    lookupA t (l1 ++ l2) = lookupA t l2 := by
  induction l1 with
  | nil => rfl
  | cons e es ih =>
    simp only [lookupA, List.cons_append] at h ⊢
    by_cases hte : t = e.1
    · rw [if_pos hte] at h
      exact absurd h (by simp)
    · rw [if_neg hte] at h ⊢
      exact ih h

theorem lookupA_appendMap (acc : List (SampleIdType × List AlignedRead))
    (s t : SampleIdType) (rs : List AlignedRead) :
    lookupA t (acc.map (fun e => if e.1 = s then (e.1, e.2 ++ rs) else e)) =
      if t = s then (lookupA t acc).map (fun v => v ++ rs) else lookupA t acc := by
  induction acc with
  | nil => simp [lookupA]
  | cons e es ih =>
    by_cases he : e.1 = s
    · have hcons : (e :: es).map (fun e2 => if e2.1 = s then (e2.1, e2.2 ++ rs) else e2)
        = (e.1, e.2 ++ rs)
          :: es.map (fun e2 => if e2.1 = s then (e2.1, e2.2 ++ rs) else e2) := by
        simp only [List.map_cons, if_pos he]
      rw [hcons]
      by_cases hte : t = e.1
      · have hts : t = s := hte.trans he
        simp only [lookupA, if_pos hte, if_pos hts]
        rfl
      · have hts : ¬ t = s := fun h2 => hte (h2.trans he.symm)
        simp only [lookupA, if_neg hte, if_neg hts]
        rw [ih, if_neg hts]
    · have hcons : (e :: es).map (fun e2 => if e2.1 = s then (e2.1, e2.2 ++ rs) else e2)
        = e :: es.map (fun e2 => if e2.1 = s then (e2.1, e2.2 ++ rs) else e2) := by
        simp only [List.map_cons, if_neg he]
      rw [hcons]
      by_cases hte : t = e.1
      · have hts : ¬ t = s := fun h2 => he ((hte.symm.trans h2) ▸ rfl)
        simp only [lookupA, if_pos hte, if_neg hts]
      · simp only [lookupA, if_neg hte]
        rw [ih]

theorem appendInto_resultReads (acc : List (SampleIdType × List AlignedRead))
    (s t : SampleIdType) (rs : List AlignedRead) :
    resultReads t (appendInto acc s rs) =
      if t = s then resultReads t acc ++ rs else resultReads t acc := by
  unfold appendInto resultReads
  by_cases hsome : (lookupA s acc).isSome
  · rw [if_pos hsome, lookupA_appendMap]
    by_cases hts : t = s
    · rw [if_pos hts, if_pos hts]
      subst hts
      cases hl : lookupA t acc with
      | none => rw [hl] at hsome; simp at hsome
      | some v => simp [hl]
    · rw [if_neg hts, if_neg hts]
  · rw [if_neg hsome]
    have hnone : lookupA s acc = none := by
      cases hl : lookupA s acc with
      | none => rfl
      | some v => rw [hl] at hsome; simp at hsome
    by_cases hts : t = s
    · subst hts
      rw [lookupA_append_none _ hnone, if_pos rfl, hnone]
      simp [lookupA]
    · rw [if_neg hts]
      cases hl : lookupA t acc with
      | some v => rw [lookupA_append_some _ hl]
      | none =>
        rw [lookupA_append_none _ hl]
        simp [lookupA, hts]

theorem demux_resultReads :
    ∀ (entries : List (SampleIdType × List AlignedRead))
      (acc : List (SampleIdType × List AlignedRead)) (t : SampleIdType),
      resultReads t (demux acc entries)
        = resultReads t acc ++ entriesReadsFor t entries := by
  intro entries
  induction entries with
  | nil =>
    intro acc t
    simp [demux, entriesReadsFor]
  | cons e es ih =>
    intro acc t
    have hstep : demux acc (e :: es) = demux (appendInto acc e.1 e.2) es := rfl
    rw [hstep, ih, appendInto_resultReads]
    by_cases hte : t = e.1
    · rw [if_pos hte]
      have hfil : entriesReadsFor t (e :: es) = e.2 ++ entriesReadsFor t es := by
        unfold entriesReadsFor
        rw [List.filter_cons_of_pos (by simp [hte])]
        rw [List.map_cons, List.flatten_cons]
      rw [hfil, List.append_assoc]
    · rw [if_neg hte]
      have hfil : entriesReadsFor t (e :: es) = entriesReadsFor t es := by
        unfold entriesReadsFor
        rw [List.filter_cons_of_neg (by simp; exact fun h2 => hte h2.symm)]
      rw [hfil]

theorem foldl_demux_resultReads (env : Env) (r : GenomicRegion) :
    ∀ (A : List Path) (acc : List (SampleIdType × List AlignedRead)) (t : SampleIdType),
      resultReads t (A.foldl (fun a p => demux a (env.readerFetch p r)) acc)
        = resultReads t acc
          ++ (A.map (fun p => entriesReadsFor t (env.readerFetch p r))).flatten := by
  intro A
  induction A with
  | nil =>
    intro acc t
    simp
  | cons p ps ih =>
    intro acc t
    simp only [List.foldl_cons, List.map_cons, List.flatten_cons]
    rw [ih, demux_resultReads, List.append_assoc]

theorem flattenMap_perm {α β : Type} (g : α → List β) {l1 l2 : List α}
    (h : List.Perm l1 l2) :
    List.Perm ((l1.map g).flatten) ((l2.map g).flatten) := by
  have e1 : (l1.map g).flatten = l1.flatMap g := by simp [List.flatMap]
  have e2 : (l2.map g).flatten = l2.flatMap g := by simp [List.flatMap]
  rw [e1, e2]
  exact List.Perm.flatMap_right g h

theorem collectSamplePaths_congr {st1 st : MgrState}
    (h : st1.samplesIdx = st.samplesIdx) :
    ∀ ss, collectSamplePaths st1 ss = collectSamplePaths st ss := by
  intro ss
  induction ss with
  | nil => rfl
  | cons s ss ih =>
    simp only [collectSamplePaths, h, ih]

theorem getReaderPaths_congr {st1 st : MgrState}
    (h : st1.samplesIdx = st.samplesIdx) (samples : List SampleIdType) :
    getReaderPathsContainingSamples st1 samples
      = getReaderPathsContainingSamples st samples := by
  unfold getReaderPathsContainingSamples
  rw [collectSamplePaths_congr h]

theorem fetchReadsM_ok_res {env : Env} {st : MgrState} {samples : List SampleIdType}
    {r : GenomicRegion} {st2 : MgrState} {res : List (SampleIdType × List AlignedRead)}
    (h : fetchReadsM env st samples r = .ok (st2, res)) :
    ∃ rpaths, getReaderPathsContainingSamples st samples = .ok rpaths ∧
      openReadersB env st (notOpenCand st (passOf st r rpaths)) = some st2 ∧
      res = (notOpenCand st (passOf st r rpaths)).foldl
        (fun a p => demux a (env.readerFetch p r))
        ((openCand st (passOf st r rpaths)).foldl
          (fun a p => demux a (env.readerFetch p r)) []) := by
  unfold fetchReadsM at h
  cases hl : getReaderPathsContainingSamples st samples with
  | error e => rw [hl] at h; simp at h
  | ok rpaths =>
    rw [hl] at h
    obtain ⟨hb, hres⟩ := fetchMCore_ok_elim h
    exact ⟨rpaths, rfl, hb, hres⟩

/-- Two consecutive multi-sample fetches with the same sample list and
region return, for every sample, per-sample read lists that are
permutations of each other, and leave `get_samples` unchanged. -/
theorem fetchM_repeat_perm {env : Env} {st st1 st2 : MgrState}
    {samples : List SampleIdType} {r : GenomicRegion}
    {res1 res2 : List (SampleIdType × List AlignedRead)}
    (h1 : fetchReadsM env st samples r = .ok (st1, res1))
    (h2 : fetchReadsM env st1 samples r = .ok (st2, res2)) :
    (∀ t, List.Perm (resultReads t res2) (resultReads t res1)) ∧
    getSamples st1 = getSamples st ∧ getSamples st2 = getSamples st := by
  obtain ⟨rp1, hgr1, hb1, hres1⟩ := fetchReadsM_ok_res h1
  obtain ⟨rp2, hgr2, hb2, hres2⟩ := fetchReadsM_ok_res h2
  have hsmp1 : st1.samplesIdx = st.samplesIdx := (openReadersB_spec hb1).2.2.2.2.2.1
  have hrg1 : st1.regionsIdx = st.regionsIdx := (openReadersB_spec hb1).2.2.2.2.2.2
  have hsmp2 : st2.samplesIdx = st1.samplesIdx := (openReadersB_spec hb2).2.2.2.2.2.1
  have hrp : rp2 = rp1 := by
    rw [getReaderPaths_congr hsmp1, hgr1] at hgr2
    injection hgr2 with h
    exact h.symm
  subst hrp
  have hgs1 : getSamples st1 = getSamples st := by
    unfold getSamples
    rw [hsmp1]
  have hgs2 : getSamples st2 = getSamples st1 := by
    unfold getSamples
    rw [hsmp2]
  refine ⟨?_, hgs1, hgs2.trans hgs1⟩
  intro t
  have hpass : passOf st1 r rp2 = passOf st r rp2 := passOf_congr hrg1 r rp2
  have e1 : resultReads t res1
      = (((openCand st (passOf st r rp2) ++ notOpenCand st (passOf st r rp2)).map
          (fun p => entriesReadsFor t (env.readerFetch p r))).flatten) := by
    rw [hres1, foldl_demux_resultReads, foldl_demux_resultReads]
    simp [resultReads, lookupA, List.map_append, List.flatten_append]
  have e2 : resultReads t res2
      = (((openCand st1 (passOf st r rp2) ++ notOpenCand st1 (passOf st r rp2)).map
          (fun p => entriesReadsFor t (env.readerFetch p r))).flatten) := by
    rw [hres2, hpass, foldl_demux_resultReads, foldl_demux_resultReads]
    simp [resultReads, lookupA, List.map_append, List.flatten_append]
  have hA1 : List.Perm (openCand st (passOf st r rp2)
      ++ notOpenCand st (passOf st r rp2)) (passOf st r rp2) := by
    unfold openCand notOpenCand
    exact List.filter_append_perm _ _
  have hA2 : List.Perm (openCand st1 (passOf st r rp2)
      ++ notOpenCand st1 (passOf st r rp2)) (passOf st r rp2) := by
    unfold openCand notOpenCand
    exact List.filter_append_perm _ _
  rw [e1, e2]
  exact (flattenMap_perm _ hA2).trans (flattenMap_perm _ hA1).symm

/-- C9 (amended): repeated fetches with identical arguments and no
intervening operation return the same reads up to order, for all three
overloads.  Two consecutive single-sample fetches yield result
sequences that are permutations of each other; two consecutive
multi-sample fetches, and two consecutive all-samples fetches, yield
for every sample per-sample read lists that are permutations of each
other; `get_samples` is unchanged throughout.  The sequence order
itself can differ between the calls, because the first call may evict
and reopen involved sources, flipping the open/closed partition of the
second call. -/
theorem c9_repeated_fetch_reads_up_to_order (env : Env) (st : MgrState)
    (s : SampleIdType) (samples : List SampleIdType) (r : GenomicRegion) :
    (∀ (st1 st2 : MgrState) (res1 res2 : List AlignedRead),
      fetchReadsS env st s r = .ok (st1, res1) →
      fetchReadsS env st1 s r = .ok (st2, res2) →
      List.Perm res2 res1 ∧ getSamples st1 = getSamples st ∧
        getSamples st2 = getSamples st) ∧
    (∀ (st1 st2 : MgrState) (res1 res2 : List (SampleIdType × List AlignedRead)),
      fetchReadsM env st samples r = .ok (st1, res1) →
      fetchReadsM env st1 samples r = .ok (st2, res2) →
      (∀ t, List.Perm (resultReads t res2) (resultReads t res1)) ∧
        getSamples st1 = getSamples st ∧ getSamples st2 = getSamples st) ∧
    (∀ (st1 st2 : MgrState) (res1 res2 : List (SampleIdType × List AlignedRead)),
      fetchReadsAll env st r = .ok (st1, res1) →
      fetchReadsAll env st1 r = .ok (st2, res2) →
      (∀ t, List.Perm (resultReads t res2) (resultReads t res1)) ∧
        getSamples st1 = getSamples st ∧ getSamples st2 = getSamples st) := by
  refine ⟨?_, ?_, ?_⟩
  case refine_2 =>
    intro st1 st2 res1 res2 h1 h2
    exact fetchM_repeat_perm h1 h2
  case refine_3 =>
    intro st1 st2 res1 res2 h1 h2
    unfold fetchReadsAll at h1 h2
    obtain ⟨rp1, hgr1, hb1, _⟩ := fetchReadsM_ok_res h1
    have hsmp1 : st1.samplesIdx = st.samplesIdx := (openReadersB_spec hb1).2.2.2.2.2.1
    have hgs : getSamples st1 = getSamples st := by
      unfold getSamples
      rw [hsmp1]
    rw [hgs] at h2
    exact fetchM_repeat_perm h1 h2
  intro st1 st2 res1 res2 h1 h2
  obtain ⟨paths, hl, hb, hres1⟩ := fetchReadsS_ok_elim h1
  obtain ⟨paths2, hl2, hb2, hres2⟩ := fetchReadsS_ok_elim h2
  obtain ⟨_, _, _, _, _, hsmp1, hrg1⟩ := openReadersB_spec hb
  obtain ⟨_, _, _, _, _, hsmp2, hrg2⟩ := openReadersB_spec hb2
  have hsmp1e : st1.samplesIdx = updateSampleA st.samplesIdx s
      (openCand st (passOf st r paths) ++ notOpenCand st (passOf st r paths)
        ++ failOf st r paths) := hsmp1
  have hsmp2e : st2.samplesIdx = updateSampleA st1.samplesIdx s
      (openCand st1 (passOf st1 r paths2) ++ notOpenCand st1 (passOf st1 r paths2)
        ++ failOf st1 r paths2) := hsmp2
  have hrg1e : st1.regionsIdx = st.regionsIdx := hrg1
  have hkeys1 : getSamples st1 = getSamples st := by
    unfold getSamples
    rw [hsmp1e, updateSampleA_keys]
  have hkeys2 : getSamples st2 = getSamples st1 := by
    unfold getSamples
    rw [hsmp2e, updateSampleA_keys]
  refine ⟨?_, hkeys1, hkeys2.trans hkeys1⟩
  have hpaths2 : paths2 = openCand st (passOf st r paths)
      ++ notOpenCand st (passOf st r paths) ++ failOf st r paths := by
    have hlk := hl2
    rw [hsmp1e, lookupA_updateSampleA, if_pos rfl] at hlk
    rw [show (lookupA s st.samplesIdx).isSome = true from by rw [hl]; rfl] at hlk
    rw [if_pos rfl] at hlk
    injection hlk with hlk
    exact hlk.symm
  have hP : List.Perm paths2 paths := by
    rw [hpaths2]
    exact partitionPerm st r paths
  have hpassP : List.Perm (passOf st1 r paths2) (passOf st r paths) := by
    rw [passOf_congr hrg1e r paths2]
    unfold passOf
    exact hP.filter _
  have hA1 : List.Perm (openCand st (passOf st r paths)
      ++ notOpenCand st (passOf st r paths)) (passOf st r paths) := by
    unfold openCand notOpenCand
    exact List.filter_append_perm _ _
  have hA2 : List.Perm (openCand st1 (passOf st1 r paths2)
      ++ notOpenCand st1 (passOf st1 r paths2)) (passOf st1 r paths2) := by
    unfold openCand notOpenCand
    exact List.filter_append_perm _ _
  rw [hres1, hres2, ← readsConcat_append, ← readsConcat_append]
  exact (readsConcat_perm env r s hA2).trans
    ((readsConcat_perm env r s hpassP).trans
      (readsConcat_perm env r s hA1).symm)

/-! ### Concrete environments for counterexamples and witnesses -/

/-- Three sources 0, 1, 2 with file sizes 1, 2, 3, all existing; every
source holds sample 0, covers contig 0 over `[0, 100)`, and returns the
single read `10·p + 10` for sample 0. -/
def envA : Env where
  fileSize := fun p => p + 1
  pathExists := fun _ => true
  possibleRegions := fun _ => [(0, (0, 100))]
  samplesOf := fun _ => [0]
  readerFetch := fun p _ => [(0, [10 * p + 10])]

/-- Like `envA` but only source 1 declares any region coverage: source 0
fails every region filter. -/
def envC7x : Env where
  fileSize := fun p => p + 1
  pathExists := fun _ => true
  possibleRegions := fun p => if p = 1 then [(0, (0, 100))] else []
  samplesOf := fun _ => [0]
  readerFetch := fun _ _ => []

/-- A source whose header scan reports the same region twice. -/
def envC8x : Env where
  fileSize := fun _ => 1
  pathExists := fun _ => true
  possibleRegions := fun _ => [(0, (5, 10)), (0, (5, 10))]
  samplesOf := fun _ => [0]
  readerFetch := fun _ _ => []

/-- Like `envA` but only path 0 exists on disk. -/
def envBad : Env where
  fileSize := fun p => p + 1
  pathExists := fun p => p == 0
  possibleRegions := fun _ => [(0, (0, 100))]
  samplesOf := fun _ => [0]
  readerFetch := fun _ _ => []

/-- Manager built over `envA` with sources 0, 1 and budget 1. -/
def stA2 : MgrState :=
  match construct envA [0, 1] 1 with
  | some (.ok st) => st
  | _ => default

/-- Manager built over `envA` with sources 0, 1, 2 and budget 1. -/
def stA3 : MgrState :=
  match construct envA [0, 1, 2] 1 with
  | some (.ok st) => st
  | _ => default

/-- Manager built over `envA` with sources 0, 1 and budget 2. -/
def stA22 : MgrState :=
  match construct envA [0, 1] 2 with
  | some (.ok st) => st
  | _ => default

/-- State after the first `fetch(0, chr0:[0,10))` on `stA2`. -/
def stA2a : MgrState :=
  match fetchReadsS envA stA2 0 (0, (0, 10)) with
  | .ok (st, _) => st
  | _ => default

/-- State after the second identical fetch, from `stA2a`. -/
def stA2b : MgrState :=
  match fetchReadsS envA stA2a 0 (0, (0, 10)) with
  | .ok (st, _) => st
  | _ => default

/-- Manager built over `envC7x` with sources 0, 1 and budget 2. -/
def stC7 : MgrState :=
  match construct envC7x [0, 1] 2 with
  | some (.ok st) => st
  | _ => default

/-- State after `fetch(0, chr0:[0,50))` on `stC7`. -/
def stC7a : MgrState :=
  match fetchReadsS envC7x stC7 0 (0, (0, 50)) with
  | .ok (st, _) => st
  | _ => default

/-- Manager built over `envC8x` with source 0 and budget 1. -/
def stC8 : MgrState :=
  match construct envC8x [0] 1 with
  | some (.ok st) => st
  | _ => default

/-- State after the first multi-sample `fetch([0], chr0:[0,10))` on
`stA2`. -/
def stM1 : MgrState :=
  match fetchReadsM envA stA2 [0] (0, (0, 10)) with
  | .ok (st, _) => st
  | _ => default

/-- State after the second identical multi-sample fetch, from `stM1`. -/
def stM2 : MgrState :=
  match fetchReadsM envA stM1 [0] (0, (0, 10)) with
  | .ok (st, _) => st
  | _ => default

/-- Operation trace used by the C1 witness. -/
def opsW : List Op := [Op.fetchS 0 (0, (0, 10)), Op.closeOne 0, Op.openOne 1]

/-- Final state of the C1 witness trace. -/
def stAW : MgrState :=
  match runOps envA stA2 opsW with
  | some st => st
  | none => default

/-- C10: the empty-pool eviction is reachable.  With budget 1 and three
sources that all hold sample 0 and pass the region filter, the fetch's
batch open computes `num_readers_to_close = 2` while only one reader is
open; `close_readers` empties the pool and then calls
`choose_reader_to_close` on the empty open map —
`open_readers_.begin()->first` on `end()`, undefined behaviour — which
the model reports as the `poolUnderflow` abort.  Were the closes to
succeed, the subsequent admissions would leave 2 readers open on a
budget of 1. -/
theorem c10_pool_underflow_at_failing_input :
    construct envA [0, 1, 2] 1 = some (.ok stA3) ∧
    stA3.openReadersL = [0] ∧
    lookupA 0 stA3.samplesIdx = some [0, 1, 2] ∧
    notOpenCand stA3 (passOf stA3 (0, (0, 10)) [0, 1, 2]) = [1, 2] ∧
    numReadersToClose stA3 2 = 2 ∧
    closeReaders (partitionedSt stA3 0 (0, (0, 10)) [0, 1, 2]) 2 = none ∧
    fetchReadsS envA stA3 0 (0, (0, 10)) = .error .poolUnderflow := by
  decide

/-- C7 counterexample: a single-sample fetch mutates the sample index.
Source 0 fails the region filter and source 1 passes it, so the in-place
partition reorders sample 0's stored path sequence from `[0, 1]` to
`[1, 0]`: the sequence is not identical before and after the fetch. -/
theorem c7_sample_index_mutation_cex :
    construct envC7x [0, 1] 2 = some (.ok stC7) ∧
    lookupA 0 stC7.samplesIdx = some [0, 1] ∧
    fetchReadsS envC7x stC7 0 (0, (0, 50)) = .ok (stC7a, []) ∧
    lookupA 0 stC7a.samplesIdx = some [1, 0] ∧
    stC7a.samplesIdx ≠ stC7.samplesIdx := by
  decide

/-- C8 counterexample: the region index is not deduplicated.  A source
whose header scan reports `[5, 10)` on contig 0 twice gets a region
index entry holding the interval twice. -/
theorem c8_region_index_duplicate_cex :
    construct envC8x [0] 1 = some (.ok stC8) ∧
    lookupA 0 stC8.regionsIdx = some [(0, [(5, 10), (5, 10)])] ∧
    ¬ ([(5, 10), (5, 10)] : List ContigRegion).Nodup := by
  decide

/-- C9 counterexample: two consecutive identical fetches need not return
the identical value, in either overload.  With budget 1 and both
sources passing the filter, the first single-sample call returns reads
of source 0 then source 1 (`[10, 20]`); the call evicts source 0 to
open source 1, so the second identical call queries them in the
opposite order and returns `[20, 10]`.  The multi-sample overload with
the sample set `{0}` behaves the same: `[(0, [10, 20])]` on the first
call, `[(0, [20, 10])]` on the second. -/
theorem c9_repeated_fetch_order_cex :
    construct envA [0, 1] 1 = some (.ok stA2) ∧
    fetchReadsS envA stA2 0 (0, (0, 10)) = .ok (stA2a, [10, 20]) ∧
    fetchReadsS envA stA2a 0 (0, (0, 10)) = .ok (stA2b, [20, 10]) ∧
    ([20, 10] : List AlignedRead) ≠ [10, 20] ∧
    fetchReadsM envA stA2 [0] (0, (0, 10)) = .ok (stM1, [(0, [10, 20])]) ∧
    fetchReadsM envA stM1 [0] (0, (0, 10)) = .ok (stM2, [(0, [20, 10])]) ∧
    ([(0, [20, 10])] : List (SampleIdType × List AlignedRead)) ≠ [(0, [10, 20])] := by
  decide

/-! ### Witnesses -/

theorem c1_budget_invariant_witness :
    runOps envA stA2 opsW = some stAW ∧ stAW.openReadersL.length ≤ 1 := by
  refine ⟨by decide, ?_⟩
  exact (c1_budget_invariant envA [0, 1] 1 opsW stA2 stAW (by decide) (by decide)
    (by decide)).2.1

theorem c2_fetch_opens_only_filter_passing_witness :
    ∀ p, p ∈ stA2a.openReadersL →
      p ∈ stA2.openReadersL ∨ couldReaderContainRegion stA2 p (0, (0, 10)) = true :=
  (c2_fetch_opens_only_filter_passing envA stA2 (0, (0, 10))).1 0 stA2a [10, 20]
    (by decide)

theorem c3_unknown_sample_error_witness :
    fetchReadsS envA stA2 99 (0, (0, 10)) = Except.error FetchErr.unknownSample ∧
    ∀ ss, 99 ∈ ss →
      fetchReadsM envA stA2 ss (0, (0, 10)) = Except.error FetchErr.unknownSample :=
  c3_unknown_sample_error envA stA2 99 (0, (0, 10)) (by decide)

theorem c4_construct_reports_all_bad_paths_witness :
    construct envBad [0, 1, 2] 1
      = some (.error (getBadPaths envBad (dedupF [0, 1, 2]))) :=
  ((c4_construct_reports_all_bad_paths envBad [0, 1, 2] 1 (by decide)).2
    (by decide)).1

theorem c5_eviction_victim_smallest_witness :
    chooseReaderToClose stA22 = some 0 ∧
    ∀ q ∈ stA22.openReadersL, envA.fileSize 0 ≤ envA.fileSize q :=
  c5_eviction_victim_smallest envA [0, 1] 2 [] stA22 stA22 0 [1] (by decide)
    (by decide) (by decide) (by decide)

theorem c6_initial_open_smallest_witness :
    stA3.openReadersL.length = min 1 (dedupF [0, 1, 2]).length ∧
    ∀ o ∈ stA3.openReadersL, ∀ c ∈ stA3.closedReaders,
      envA.fileSize o ≤ envA.fileSize c :=
  c6_initial_open_smallest envA [0, 1, 2] 1 stA3 (by decide) (by decide)

theorem c7_sample_index_preserved_up_to_order_witness :
    stC7a.samplesIdx.map Prod.fst = stC7.samplesIdx.map Prod.fst ∧
    (∀ (t : SampleIdType) (l2 : List Path), lookupA t stC7a.samplesIdx = some l2 →
      ∃ l1, lookupA t stC7.samplesIdx = some l1 ∧ List.Perm l2 l1) ∧
    stC7a.regionsIdx = stC7.regionsIdx ∧
    (∀ (ss : List SampleIdType) (r2 : GenomicRegion) (stM : MgrState)
      (resM : List (SampleIdType × List AlignedRead)),
      fetchReadsM envC7x stC7 ss r2 = .ok (stM, resM) →
      stM.samplesIdx = stC7.samplesIdx) :=
  c7_sample_index_preserved_up_to_order envC7x stC7 0 (0, (0, 50)) stC7a []
    (by decide)

theorem c8_region_index_sorted_by_start_witness :
    ([(0, 100)] : List ContigRegion).Pairwise (fun a b => a.1 ≤ b.1) ∧
    ((envA.possibleRegions 0).Nodup → ([(0, 100)] : List ContigRegion).Nodup) :=
  c8_region_index_sorted_by_start envA [0, 1, 2] 1 stA3 0 [(0, [(0, 100)])] 0
    [(0, 100)] (by decide) (by decide) (by decide)

theorem c9_repeated_fetch_reads_up_to_order_witness :
    (List.Perm [20, 10] [10, 20] ∧ getSamples stA2a = getSamples stA2 ∧
      getSamples stA2b = getSamples stA2) ∧
    ((∀ t, List.Perm (resultReads t [(0, [20, 10])]) (resultReads t [(0, [10, 20])])) ∧
      getSamples stM1 = getSamples stA2 ∧ getSamples stM2 = getSamples stA2) := by
  constructor
  · exact (c9_repeated_fetch_reads_up_to_order envA stA2 0 [0] (0, (0, 10))).1
      stA2a stA2b [10, 20] [20, 10] (by decide) (by decide)
  · exact (c9_repeated_fetch_reads_up_to_order envA stA2 0 [0] (0, (0, 10))).2.1
      stM1 stM2 [(0, [10, 20])] [(0, [20, 10])] (by decide) (by decide)

end ReadManager
